import Mathlib

/-!
Verification of the server dialect resolution and privilege reconciliation
engine of the `community.mysql` Ansible collection.

The development shallowly embeds the relevant Python source files:

* `plugins/module_utils/command_resolver.py` (`CommandResolver.resolve_command`),
* `plugins/module_utils/user.py` (`user_add`, `user_mod`, `user_delete`,
  `privileges_unpack`, `normalize_col_grants` and friends),
* `plugins/modules/mysql_user.py` (its own `privileges_unpack` with the
  `VALID_PRIVS` check),
* `plugins/module_utils/implementations/mysql/hash.py`
  (`mysql_sha256_password_hash`).

Python strings are embedded as `List Char` (named `Str` below); all string
helpers are defined by structural recursion so that every definition is
executable by kernel reduction.  Python dicts with insertion order are
embedded as association lists.  Database interaction is embedded by an
explicit statement trace plus an environment record that supplies the values
the code reads back from the server.
-/

/-- Python strings, embedded as plain character lists. -/
abbrev Str := List Char

/-- Uppercase a character, ASCII only (sufficient for the SQL keywords and
privilege tokens the source manipulates). -/
def chUpper (c : Char) : Char :=
  if 'a' ≤ c ∧ c ≤ 'z' then Char.ofNat (c.toNat - 32) else c

/-- Python `str.upper()` on the embedded ASCII fragment. -/
def strUpper (s : Str) : Str := s.map chUpper

/-- Python whitespace test for `str.strip()` / `\s`. -/
def isPySpace (c : Char) : Bool :=
  c = ' ' ∨ c = '\t' ∨ c = '\n' ∨ c = '\r'

/-- Python `str.strip()` (strip whitespace at both ends). -/
def stripWs (s : Str) : Str :=
  ((s.dropWhile isPySpace).reverse.dropWhile isPySpace).reverse

/-- Python `str.strip(c)` for a single strip character. -/
def stripChar (c : Char) (s : Str) : Str :=
  ((s.dropWhile (· = c)).reverse.dropWhile (· = c)).reverse

/-- Python `str.rstrip(c)` for a single strip character. -/
def rstripChar (c : Char) (s : Str) : Str :=
  (s.reverse.dropWhile (· = c)).reverse

/-- Python `str.split(sep)` for a one-character separator: splits at every
occurrence, keeping empty pieces (`"".split(c) == [""]`). -/
def splitOnChar (sep : Char) : Str → List Str
  | [] => [[]]
  | c :: rest =>
    let r := splitOnChar sep rest
    if c = sep then [] :: r
    else match r with
      | [] => [[c]]
      | p :: ps => (c :: p) :: ps

/-- Python `str.split(sep, 1)`: `none` when the separator does not occur,
otherwise the pieces before and after its first occurrence. -/
def splitFirst (sep : Char) : Str → Option (Str × Str)
  | [] => none
  | c :: rest =>
    if c = sep then some ([], rest)
    else match splitFirst sep rest with
      | none => none
      | some (l, r) => some (c :: l, r)

/-- Python `str.rsplit(sep, 1)`: `none` when the separator does not occur,
otherwise the pieces before and after its last occurrence (computed by
splitting the reversed string at its first separator). -/
def rsplitOnce (sep : Char) (s : Str) : Option (Str × Str) :=
  match splitFirst sep s.reverse with
  | none => none
  | some (l, r) => some (r.reverse, l.reverse)

/-- Join string pieces with a separator (Python `sep.join(parts)`). -/
def joinWith (sep : Str) : List Str → Str
  | [] => []
  | [p] => p
  | p :: ps => p ++ sep ++ joinWith sep ps

/-- Substring test (Python `pat in s`): does `pat` occur contiguously in `s`? -/
def containsSub (s pat : Str) : Bool :=
  match s with
  | [] => pat.isEmpty
  | _ :: rest => pat.isPrefixOf s || containsSub rest pat

/-- Stable insertion into a list sorted by `le`. -/
def insSorted (le : α → α → Bool) (x : α) : List α → List α
  | [] => [x]
  | y :: ys => if le x y then x :: y :: ys else y :: insSorted le x ys

/-- Stable insertion sort (Python's `list.sort` is stable). -/
def pySortBy (le : α → α → Bool) : List α → List α
  | [] => []
  | x :: xs => insSorted le x (pySortBy le xs)

/-! ## Loose version comparison

`command_resolver.py` imports `LooseVersion` from `._version`, and the
implementation modules import it from `..version`; neither file is part of
the sources given, so the comparison is modelled from the specification. -/

/-- Numeric value of a digit run. -/
def digitsVal (ds : Str) : Nat :=
  ds.foldl (fun acc c => acc * 10 + (c.toNat - 48)) 0

/-- Modelled from the spec: `LooseVersion` parsing (the repository's
`_version.py` / `version.py` is not among the given sources).  Per §4.1 a
version string is split on `.`; numeric components are compared as integers,
trailing non-numeric suffixes attached to a numeric component are tolerated,
and non-numeric segments do not participate in ordering. -/
def looseParse (s : Str) : List Nat :=
  (splitOnChar '.' s).filterMap (fun comp =>
    let ds := comp.takeWhile Char.isDigit
    if ds.isEmpty then none else some (digitsVal ds))

/-- Modelled from the spec: strict `LooseVersion` ordering — lexicographic on
the numeric components, a shorter sequence sharing a prefix ordering below a
longer one. -/
def verLT : List Nat → List Nat → Bool
  | [], [] => false
  | [], _ :: _ => true
  | _ :: _, [] => false
  | a :: as, b :: bs => if a < b then true else if b < a then false else verLT as bs

/-- Non-strict version comparison, derived from `verLT` as for a total order. -/
def verLE (a b : List Nat) : Bool := ! verLT b a

/-! ## CommandResolver (`plugins/module_utils/command_resolver.py`) -/

/-- Server implementation marker; the source carries it as the strings
`"mysql"` / `"mariadb"`. -/
inductive Impl
  | mysql
  | mariadb
deriving DecidableEq, Repr

/-- Failure modes of `resolve_command`: the `ValueError` for a command key
absent from the table, and the `KeyError` a missing `default` entry would
raise. -/
inductive ResolveError
  | unsupported (command : Str)
  | keyError
deriving DecidableEq, Repr

def commands : List (Str × List ((Impl × Str) × Str)) :=
  [(("SHOW MASTER STATUS".data),
     [((Impl.mysql, ("default".data)), ("SHOW MASTER STATUS".data)),
      ((Impl.mariadb, ("default".data)), ("SHOW MASTER STATUS".data)),
      ((Impl.mysql, ("8.2.0".data)), ("SHOW BINARY LOG STATUS".data)),
      ((Impl.mariadb, ("10.5.2".data)), ("SHOW BINLOG STATUS".data))]),
   (("SHOW SLAVE STATUS".data),
     [((Impl.mysql, ("default".data)), ("SHOW SLAVE STATUS".data)),
      ((Impl.mariadb, ("default".data)), ("SHOW SLAVE STATUS".data)),
      ((Impl.mysql, ("8.0.22".data)), ("SHOW REPLICA STATUS".data)),
      ((Impl.mariadb, ("10.5.1".data)), ("SHOW REPLICA STATUS".data))]),
   (("SHOW SLAVE HOSTS".data),
     [((Impl.mysql, ("default".data)), ("SHOW SLAVE HOSTS".data)),
      ((Impl.mariadb, ("default".data)), ("SHOW SLAVE HOSTS".data)),
      ((Impl.mysql, ("8.0.22".data)), ("SHOW REPLICAS".data)),
      ((Impl.mariadb, ("10.5.1".data)), ("SHOW REPLICA HOSTS".data))]),
   (("CHANGE MASTER".data),
     [((Impl.mysql, ("default".data)), ("CHANGE MASTER".data)),
      ((Impl.mariadb, ("default".data)), ("CHANGE MASTER".data)),
      ((Impl.mysql, ("8.0.23".data)), ("CHANGE REPLICATION SOURCE".data))]),
   (("MASTER_HOST".data),
     [((Impl.mysql, ("default".data)), ("MASTER_HOST".data)),
      ((Impl.mariadb, ("default".data)), ("MASTER_HOST".data)),
      ((Impl.mysql, ("8.0.23".data)), ("SOURCE_HOST".data))]),
   (("MASTER_USER".data),
     [((Impl.mysql, ("default".data)), ("MASTER_USER".data)),
      ((Impl.mariadb, ("default".data)), ("MASTER_USER".data)),
      ((Impl.mysql, ("8.0.23".data)), ("SOURCE_USER".data))]),
   (("MASTER_PASSWORD".data),
     [((Impl.mysql, ("default".data)), ("MASTER_PASSWORD".data)),
      ((Impl.mariadb, ("default".data)), ("MASTER_PASSWORD".data)),
      ((Impl.mysql, ("8.0.23".data)), ("SOURCE_PASSWORD".data))]),
   (("MASTER_PORT".data),
     [((Impl.mysql, ("default".data)), ("MASTER_PORT".data)),
      ((Impl.mariadb, ("default".data)), ("MASTER_PORT".data)),
      ((Impl.mysql, ("8.0.23".data)), ("SOURCE_PORT".data))]),
   (("MASTER_CONNECT_RETRY".data),
     [((Impl.mysql, ("default".data)), ("MASTER_CONNECT_RETRY".data)),
      ((Impl.mariadb, ("default".data)), ("MASTER_CONNECT_RETRY".data)),
      ((Impl.mysql, ("8.0.23".data)), ("SOURCE_CONNECT_RETRY".data))]),
   (("MASTER_LOG_FILE".data),
     [((Impl.mysql, ("default".data)), ("MASTER_LOG_FILE".data)),
      ((Impl.mariadb, ("default".data)), ("MASTER_LOG_FILE".data)),
      ((Impl.mysql, ("8.0.23".data)), ("SOURCE_LOG_FILE".data))]),
   (("MASTER_LOG_POS".data),
     [((Impl.mysql, ("default".data)), ("MASTER_LOG_POS".data)),
      ((Impl.mariadb, ("default".data)), ("MASTER_LOG_POS".data)),
      ((Impl.mysql, ("8.0.23".data)), ("SOURCE_LOG_POS".data))]),
   (("MASTER_DELAY".data),
     [((Impl.mysql, ("default".data)), ("MASTER_DELAY".data)),
      ((Impl.mariadb, ("default".data)), ("MASTER_DELAY".data)),
      ((Impl.mysql, ("8.0.23".data)), ("SOURCE_DELAY".data))]),
   (("MASTER_SSL".data),
     [((Impl.mysql, ("default".data)), ("MASTER_SSL".data)),
      ((Impl.mariadb, ("default".data)), ("MASTER_SSL".data)),
      ((Impl.mysql, ("8.0.23".data)), ("SOURCE_SSL".data))]),
   (("MASTER_SSL_CA".data),
     [((Impl.mysql, ("default".data)), ("MASTER_SSL_CA".data)),
      ((Impl.mariadb, ("default".data)), ("MASTER_SSL_CA".data)),
      ((Impl.mysql, ("8.0.23".data)), ("SOURCE_SSL_CA".data))]),
   (("MASTER_SSL_CAPATH".data),
     [((Impl.mysql, ("default".data)), ("MASTER_SSL_CAPATH".data)),
      ((Impl.mariadb, ("default".data)), ("MASTER_SSL_CAPATH".data)),
      ((Impl.mysql, ("8.0.23".data)), ("SOURCE_SSL_CAPATH".data))]),
   (("MASTER_SSL_CERT".data),
     [((Impl.mysql, ("default".data)), ("MASTER_SSL_CERT".data)),
      ((Impl.mariadb, ("default".data)), ("MASTER_SSL_CERT".data)),
      ((Impl.mysql, ("8.0.23".data)), ("SOURCE_SSL_CERT".data))]),
   (("MASTER_SSL_KEY".data),
     [((Impl.mysql, ("default".data)), ("MASTER_SSL_KEY".data)),
      ((Impl.mariadb, ("default".data)), ("MASTER_SSL_KEY".data)),
      ((Impl.mysql, ("8.0.23".data)), ("SOURCE_SSL_KEY".data))]),
   (("MASTER_SSL_CIPHER".data),
     [((Impl.mysql, ("default".data)), ("MASTER_SSL_CIPHER".data)),
      ((Impl.mariadb, ("default".data)), ("MASTER_SSL_CIPHER".data)),
      ((Impl.mysql, ("8.0.23".data)), ("SOURCE_SSL_CIPHER".data))]),
   (("MASTER_SSL_VERIFY_SERVER_CERT".data),
     [((Impl.mysql, ("default".data)), ("MASTER_SSL_VERIFY_SERVER_CERT".data)),
      ((Impl.mariadb, ("default".data)), ("MASTER_SSL_VERIFY_SERVER_CERT".data)),
      ((Impl.mysql, ("8.0.23".data)), ("SOURCE_SSL_VERIFY_SERVER_CERT".data))]),
   (("MASTER_AUTO_POSITION".data),
     [((Impl.mysql, ("default".data)), ("MASTER_AUTO_POSITION".data)),
      ((Impl.mariadb, ("default".data)), ("MASTER_AUTO_POSITION".data)),
      ((Impl.mysql, ("8.0.23".data)), ("SOURCE_AUTO_POSITION".data))]),
   (("RESET MASTER".data),
     [((Impl.mysql, ("default".data)), ("RESET MASTER".data)),
      ((Impl.mariadb, ("default".data)), ("RESET MASTER".data)),
      ((Impl.mysql, ("8.4.0".data)), ("RESET BINARY LOGS AND GTIDS".data))])]

/-- The literal `"default"` version key. -/
def defaultKey : Str := ("default").data

/-- `CommandResolver.resolve_command`: uppercase the command, look it up in
the table, keep the entries of the server's implementation whose key is not
`"default"`, sort them by version floor descending (stable, as Python's
`list.sort(reverse=True)`), return the dialect of the first floor at or below
the server version, falling back to the implementation's `default` entry. -/
def resolve_command (impl : Impl) (serverVersion : Str) (command : Str) :
    Except ResolveError Str :=
  let command := strUpper command
  match commands.lookup command with
  | none => .error (.unsupported command)
  | some cmdSyntaxes =>
    let applicable := (cmdSyntaxes.filter
        (fun e => e.1.1 == impl && e.1.2 ≠ defaultKey)).map
      (fun e => (e.1.2, e.2))
    let sorted := pySortBy
      (fun x y => verLE (looseParse y.1) (looseParse x.1)) applicable
    match sorted.find? (fun e => verLE (looseParse e.1) (looseParse serverVersion)) with
    | some (_, cmd) => .ok cmd
    | none =>
      match cmdSyntaxes.lookup (impl, defaultKey) with
      | some cmd => .ok cmd
      | none => .error .keyError

/-- Pick the entry with the greatest version floor (ties keep the earlier
table entry, matching the spec's tie-break rule). -/
def maxByFloor (l : List ((Impl × Str) × Str)) : Option ((Impl × Str) × Str) :=
  l.foldl (fun best e =>
    match best with
    | none => some e
    | some b => if verLT (looseParse b.1.2) (looseParse e.1.2) then some e else some b)
    none

/-- Resolution as the specification words it: among the table entries for the
implementation whose version floor is at most the server version, return the
dialect of the one with the greatest floor; fall back to the
`(implementation, "default")` entry when no floor matches; fail with the
unsupported-command error when the command key is absent from the table
entirely. -/
def specResolve (impl : Impl) (serverVersion : Str) (command : Str) :
    Except ResolveError Str :=
  let command := strUpper command
  match commands.lookup command with
  | none => .error (.unsupported command)
  | some cmdSyntaxes =>
    let cands := cmdSyntaxes.filter
      (fun e => (e.1.1 == impl && e.1.2 ≠ defaultKey) &&
        verLE (looseParse e.1.2) (looseParse serverVersion))
    match maxByFloor cands with
    | some e => .ok e.2
    | none =>
      match cmdSyntaxes.lookup (impl, defaultKey) with
      | some cmd => .ok cmd
      | none => .error .keyError

instance {ε α : Type} [DecidableEq ε] [DecidableEq α] : DecidableEq (Except ε α)
  | .ok a, .ok b => decidable_of_iff (a = b) (by simp)
  | .error a, .error b => decidable_of_iff (a = b) (by simp)
  | .ok _, .error _ => isFalse (by simp)
  | .error _, .ok _ => isFalse (by simp)

/-- A successful association-list lookup returns one of the stored values. -/
theorem lookup_mem {α β : Type} [BEq α] [LawfulBEq α] (l : List (α × β)) (k : α)
    (v : β) (h : l.lookup k = some v) : v ∈ l.map Prod.snd := by
  induction l with
  | nil => simp [List.lookup] at h
  | cons e t ih =>
    rw [List.lookup] at h
    by_cases hk : k == e.1
    · simp [hk] at h
      simp [h]
    · simp only [hk, Bool.false_eq_true, if_false] at h
      simp [ih h]

/-- Filtering with a conjunction equals filtering twice. -/
theorem filter_and_eq {α : Type} (p q : α → Bool) (l : List α) :
    l.filter (fun a => p a && q a) = (l.filter p).filter q := by
  induction l with
  | nil => rfl
  | cons a t ih =>
    by_cases hp : p a <;> by_cases hq : q a <;>
      simp [List.filter, hp, hq, ih]

/-- Per-command well-formedness used by the resolver equivalence: for each
implementation at most one non-default floor is recorded. -/
def goodSyntaxes (m : List ((Impl × Str) × Str)) : Prop :=
  ((m.filter (fun e => e.1.1 == Impl.mysql && e.1.2 ≠ defaultKey)).length ≤ 1) ∧
  ((m.filter (fun e => e.1.1 == Impl.mariadb && e.1.2 ≠ defaultKey)).length ≤ 1)

instance : DecidablePred goodSyntaxes := fun m => by
  unfold goodSyntaxes
  infer_instance

/-- Every syntax table stored in `commands` is well-formed. -/
theorem tableGood : ∀ m ∈ commands.map Prod.snd, goodSyntaxes m := by decide

theorem resolve_eq_spec (impl : Impl) (v k : Str) :
    resolve_command impl v k = specResolve impl v k := by
  unfold resolve_command specResolve
  cases h : commands.lookup (strUpper k) with
  | none => simp only [h]
  | some m =>
    have hg : goodSyntaxes m := tableGood m (lookup_mem _ _ _ h)
    have hle : (m.filter (fun e => e.1.1 == impl && decide (e.1.2 ≠ defaultKey))).length ≤ 1 := by
      cases impl
      · exact hg.1
      · exact hg.2
    simp only [h]
    rw [filter_and_eq (fun e => e.1.1 == impl && decide (e.1.2 ≠ defaultKey))
      (fun e => verLE (looseParse e.1.2) (looseParse v)) m]
    cases hl : m.filter (fun e => e.1.1 == impl && decide (e.1.2 ≠ defaultKey)) with
    | nil => simp [pySortBy, maxByFloor, List.find?]
    | cons e t =>
      rw [hl] at hle
      have ht : t = [] := by simpa using hle
      subst ht
      by_cases hq : verLE (looseParse e.1.2) (looseParse v)
      · simp [pySortBy, insSorted, maxByFloor, List.find?, List.filter, hq]
      · simp [pySortBy, insSorted, maxByFloor, List.find?, List.filter, hq]

/-- C1: `resolve_command` agrees, for every implementation, version string and
command key, with the spec's description (greatest version floor at most the
server version, `default` fallback, unsupported-command error for a key absent
from the table), and the four concrete resolutions claimed for
`SHOW MASTER STATUS` hold. -/
theorem C1_resolve_command_correct :
    (∀ (impl : Impl) (v k : Str), resolve_command impl v k = specResolve impl v k) ∧
    (∀ (impl : Impl) (v k : Str), commands.lookup (strUpper k) = none →
      resolve_command impl v k = .error (.unsupported (strUpper k))) ∧
    resolve_command Impl.mysql ("8.0.20".data) ("SHOW MASTER STATUS".data) =
      .ok ("SHOW MASTER STATUS".data) ∧
    resolve_command Impl.mysql ("8.2.0".data) ("SHOW MASTER STATUS".data) =
      .ok ("SHOW BINARY LOG STATUS".data) ∧
    resolve_command Impl.mariadb ("10.5.2".data) ("SHOW MASTER STATUS".data) =
      .ok ("SHOW BINLOG STATUS".data) ∧
    resolve_command Impl.mariadb ("10.4.23".data) ("SHOW MASTER STATUS".data) =
      .ok ("SHOW MASTER STATUS".data) := by
  refine ⟨resolve_eq_spec, ?_, by decide, by decide, by decide, by decide⟩
  intro impl v k h
  unfold resolve_command
  simp only [h]

/-- C1 witness: the unsupported-command branch of the theorem applied at a
concrete absent key. -/
theorem C1_resolve_command_correct_witness :
    resolve_command Impl.mysql ("8.0.0".data) ("SHOW NOTHING".data) =
      .error (.unsupported ("SHOW NOTHING".data)) :=
  C1_resolve_command_correct.2.1 Impl.mysql ("8.0.0".data) ("SHOW NOTHING".data)
    (by decide)

/-! ## PasswordHasher (`plugins/module_utils/implementations/mysql/hash.py`)

The SHA-256 core comes from Python's `hashlib`, which is outside the
repository; it is abstracted as a parameter mapping a byte list to a 32-byte
digest.  Byte strings (`str.encode()`) are embedded as `List Nat`; the inputs
the collection hashes are ASCII, where UTF-8 encoding is the identity on code
points. -/

/-- Byte encoding of a string (`str.encode()`), identified with the code
points (exact for the ASCII range). -/
def pyEncode (s : Str) : List Nat := s.map Char.toNat

/-- The custom base-64 alphabet of `_to64`. -/
def i64chars : Str :=
  ("./0123456789ABCDEFGHIJKLMNOPQRSTUVWXYZabcdefghijklmnopqrstuvwxyz").data

/-- `_to64(v, n)`: emit `n` characters, least-significant 6-bit group first. -/
def _to64 (v : Nat) : Nat → Str
  | 0 => []
  | n + 1 => i64chars.getD (v % 64) '.' :: _to64 (v / 64) n

/-- Expansion step `for i in range(n, 0, -32): out += d if i > 32 else d[:i]`
(used for digests B, DP and DS).  The first argument is fuel, which strictly
exceeds the number of loop iterations whenever it is at least `n`. -/
def repExpandF (d : List Nat) : Nat → Nat → List Nat
  | 0, _ => []
  | _, 0 => []
  | f + 1, n + 1 => if n + 1 > 32 then d ++ repExpandF d f (n + 1 - 32) else d.take (n + 1)

/-- Digest expansion to `n` bytes. -/
def repExpand (d : List Nat) (n : Nat) : List Nat := repExpandF d n n

/-- The bit-descent step `while i > 0: out += d if i odd else k; i >>= 1`,
with fuel bounding the halving chain (fuel `i` suffices). -/
def bitExpandF (d k : List Nat) : Nat → Nat → List Nat
  | 0, _ => []
  | _, 0 => []
  | f + 1, i + 1 =>
    (if (i + 1) % 2 = 1 then d else k) ++ bitExpandF d k f ((i + 1) / 2)

/-- Bit-descent expansion starting from `i`. -/
def bitExpand (d k : List Nat) (i : Nat) : List Nat := bitExpandF d k i i

/-- `l` concatenated with itself `n` times. -/
def repeatList (l : List Nat) : Nat → List Nat
  | 0 => []
  | n + 1 => l ++ repeatList l n

/-- The main iterated-digest loop of `_sha256_digest`: `rem` iterations
remain, `i` is the current index, `C` the running digest. -/
def digestLoop (sha : List Nat → List Nat) (P S : List Nat) :
    Nat → Nat → List Nat → List Nat
  | _, 0, C => C
  | i, rem + 1, C =>
    let tmp := if i % 2 = 1 then P else C
    let tmp := if i % 3 ≠ 0 then tmp ++ S else tmp
    let tmp := if i % 7 ≠ 0 then tmp ++ P else tmp
    let tmp := tmp ++ (if i % 2 = 1 then C else P)
    digestLoop sha P S (i + 1) rem (sha tmp)

/-- The base-64 emission loop (stride 21 modulo 30, stopping on return to
index 0; fuel 30 strictly exceeds the 10-step cycle). -/
def encodeLoopF (C : List Nat) : Nat → Nat → Str
  | 0, _ => []
  | f + 1, i =>
    let chunk := _to64
      ((C.getD i 0) <<< 16 ||| (C.getD ((i + 10) % 30) 0) <<< 8 |||
        C.getD ((i + 10 * 2) % 30) 0) 4
    let i2 := (i + 21) % 30
    if i2 = 0 then chunk else chunk ++ encodeLoopF C f i2

/-- `_sha256_digest(key, salt, loops)` with the SHA-256 core abstract. -/
def _sha256_digest (sha : List Nat → List Nat) (key salt : Str) (loops : Nat) : Str :=
  let bytes_key := pyEncode key
  let bytes_salt := pyEncode salt
  let digest_b := sha (bytes_key ++ bytes_salt ++ bytes_key)
  let tmp := bytes_key ++ bytes_salt ++ repExpand digest_b bytes_key.length
  let tmp := tmp ++ bitExpand digest_b bytes_key bytes_key.length
  let digest_a := sha tmp
  let digest_dp := sha (repeatList bytes_key bytes_key.length)
  let byte_sequence_p := repExpand digest_dp bytes_key.length
  let til := 16 + digest_a.getD 0 0
  let digest_ds := sha (repeatList bytes_salt til)
  let byte_sequence_s := repExpand digest_ds bytes_salt.length
  let digest_c := digestLoop sha byte_sequence_p byte_sequence_s 0 loops digest_a
  encodeLoopF digest_c 30 0 ++
    _to64 ((digest_c.getD 31 0) <<< 8 ||| digest_c.getD 30 0) 3

/-- Decimal digit characters of a natural number (fuel-based). -/
def natDecF : Nat → Nat → Str
  | 0, _ => []
  | f + 1, n =>
    if n < 10 then [Char.ofNat (48 + n)]
    else natDecF f (n / 10) ++ [Char.ofNat (48 + n % 10)]

/-- Decimal rendering of a natural number. -/
def natDec (n : Nat) : Str := natDecF (n + 1) n

/-- Python format `{0:>03}`: right-aligned, zero-padded to width 3. -/
def pad3 (s : Str) : Str :=
  if s.length < 3 then List.replicate (3 - s.length) '0' ++ s else s

/-- `mysql_sha256_password_hash(password, salt)`: `ValueError` unless the salt
is exactly 20 characters, otherwise the `$A$`-prefixed format string around
the 5000-round digest. -/
def mysql_sha256_password_hash (sha : List Nat → List Nat) (password salt : Str) :
    Except Str Str :=
  if salt.length ≠ 20 then .error (("Salt must be 20 characters long.").data)
  else
    let count := 5
    let iteration := 1000 * count
    let digest := _sha256_digest sha password salt iteration
    .ok (("$A$").data ++ pad3 (natDec count) ++ ("$").data ++ salt ++ digest)

/-- Lowercase hex character of a value below 16. -/
def hexDigitL (n : Nat) : Char :=
  if n < 10 then Char.ofNat (48 + n) else Char.ofNat (87 + n)

/-- Python `bytes.hex()`: two lowercase hex characters per byte. -/
def pyHexLower (bytes : List Nat) : Str :=
  bytes.foldr (fun b acc => hexDigitL (b / 16) :: hexDigitL (b % 16) :: acc) []

/-- `mysql_sha256_password_hash_hex`: the raw hash, byte-encoded, hex-encoded
and upper-cased. -/
def mysql_sha256_password_hash_hex (sha : List Nat → List Nat)
    (password salt : Str) : Except Str Str :=
  (mysql_sha256_password_hash sha password salt).map
    (fun s => strUpper (pyHexLower (pyEncode s)))

/-- A degenerate stand-in digest core (all-zero output) used to instantiate
the abstract SHA-256 parameter in closed statements. -/
def shaZero : List Nat → List Nat := fun _ => List.replicate 32 0

/-- A concrete 20-character salt. -/
def salt20 : Str := ("ABCDEFGHIJKLMNOPQRST").data

/-- C9 (amended): for every digest core, password, and salt of exactly 20
characters, the hash output is the format string `$A$` + `005` (rounds 5,
zero-padded to three digits, with no additional literal `0`) + `$` + salt +
the encoded digest of 5000 (1000 × 5) loop iterations, and the hex variant is
that same string hex-encoded and upper-cased. -/
theorem C9_hash_format (sha : List Nat → List Nat) (password salt : Str)
    (h : salt.length = 20) :
    mysql_sha256_password_hash sha password salt =
      .ok (("$A$005$").data ++ salt ++ _sha256_digest sha password salt (1000 * 5)) ∧
    mysql_sha256_password_hash_hex sha password salt =
      .ok (strUpper (pyHexLower (pyEncode
        (("$A$005$").data ++ salt ++
          _sha256_digest sha password salt (1000 * 5))))) := by
  have h20 : ¬ (salt.length ≠ 20) := by simp [h]
  unfold mysql_sha256_password_hash_hex mysql_sha256_password_hash
  rw [if_neg h20]
  exact ⟨rfl, rfl⟩

/-- C9 witness: the format theorem applied at a concrete digest core,
password and 20-character salt. -/
theorem C9_hash_format_witness :
    salt20.length = 20 ∧
    mysql_sha256_password_hash shaZero ("pw".data) salt20 =
      .ok (("$A$005$").data ++ salt20 ++
        _sha256_digest shaZero ("pw".data) salt20 (1000 * 5)) :=
  ⟨by decide, (C9_hash_format shaZero ("pw".data) salt20 (by decide)).1⟩

/-- C9 counterexample: the claimed template `$A$0` + `{rounds:03d}` (which
renders as `$A$0005$` for rounds 5) does not match the code's output, which
renders as `$A$005$`. -/
theorem C9_hash_format_counterexample :
    mysql_sha256_password_hash shaZero ("pw".data) salt20 ≠
      .ok (("$A$0").data ++ pad3 (natDec 5) ++ ("$").data ++ salt20 ++
        _sha256_digest shaZero ("pw".data) salt20 (1000 * 5)) := by
  decide

/-! ## GrantStringCodec: column-grant normalization
(`normalize_col_grants`, `has_grant_on_col`, `handle_grant_on_col`,
`sort_column_order` in `plugins/module_utils/user.py`). -/

/-- Strict lexicographic string comparison by code point (Python `<` on
`str`, restricted to the characters in play). -/
def strLt : Str → Str → Bool
  | [], [] => false
  | [], _ :: _ => true
  | _ :: _, [] => false
  | a :: as, b :: bs => if a < b then true else if b < a then false else strLt as bs

/-- Non-strict counterpart of `strLt`. -/
def strLe (a b : Str) : Bool := ! strLt b a

/-- `sort_column_order`: split the statement at `(`, strip trailing `)` from
the part after the first `(`, split the columns on commas, strip whitespace
and backticks, sort, and re-emit `NAME(colA, colB, ...)`. -/
def sort_column_order (statement : Str) : Str :=
  let tmp := splitOnChar '(' statement
  let priv_name := tmp.getD 0 []
  let columns := rstripChar ')' (tmp.getD 1 [])
  let columns := splitOnChar ',' columns
  let columns := columns.map (fun col => stripChar '`' (stripWs col))
  let columns := pySortBy strLe columns
  priv_name ++ [ '(' ] ++ joinWith ((", ").data) columns ++ [ ')' ]

/-- Scan of `has_grant_on_col`: the start index is (re)assigned at every
element containing `NAME (`, and the first element containing `)` after a
start has been seen closes the range. -/
def hasGrantOnColAux (pat : Str) : List Str → Nat → Option Nat → Option (Nat × Nat)
  | [], _, _ => none
  | p :: rest, n, start =>
    let start := if containsSub p pat then some n else start
    match start with
    | some s =>
      if p.contains ')' then some (s, n) else hasGrantOnColAux pat rest (n + 1) (some s)
    | none => hasGrantOnColAux pat rest (n + 1) none

/-- `has_grant_on_col(privileges, grant)`. -/
def has_grant_on_col (privileges : List Str) (grant : Str) : Option (Nat × Nat) :=
  hasGrantOnColAux (grant ++ (" (").data) privileges 0 none

/-- `handle_grant_on_col(privileges, start, end)`. -/
def handle_grant_on_col (privileges : List Str) (start finish : Nat) : List Str :=
  if start ≠ finish then
    privileges.take start ++
      [sort_column_order
        (joinWith ((", ").data) ((privileges.drop start).take (finish + 1 - start)))] ++
      privileges.drop (finish + 1)
  else
    privileges.set start (sort_column_order (privileges.getD start []))

/-- The four privilege names supporting column lists, in source order. -/
def colGrantNames : List Str :=
  [("SELECT").data, ("UPDATE").data, ("INSERT").data, ("REFERENCES").data]

/-- `normalize_col_grants(privileges)`: one repair pass per column-capable
privilege name. -/
def normalize_col_grants (privileges : List Str) : List Str :=
  colGrantNames.foldl (fun privs grant =>
    match has_grant_on_col privs grant with
    | some (s, e) => handle_grant_on_col privs s e
    | none => privs) privileges

/-! ## GrantStringCodec: privilege specification decoding
(`privileges_unpack` in `plugins/module_utils/user.py` and its validating
variant in `plugins/modules/mysql_user.py`). -/

/-- Failure modes of decoding: the `IndexError` a segment without `:` raises
at `pieces[1]`, and the `InvalidPrivsError` of the validating variant,
carrying the offending tokens. -/
inductive UnpackErr
  | indexError
  | invalidPrivs (bad : List Str)
deriving DecidableEq, Repr

/-- Lookahead of the token-splitting regex `,\s*(?=[^)]*(?:\(|$))`: from this
position an `(` or the end of the string is reachable before any `)`. -/
def lookaheadOpenBeforeClose : Str → Bool
  | [] => true
  | '(' :: _ => true
  | ')' :: _ => false
  | _ :: rest => lookaheadOpenBeforeClose rest

/-- Fuel-based scan of `re.split(r',\s*(?=[^)]*(?:\(|$))', s)`: split at every
comma (consuming following whitespace) whose lookahead holds; other commas
stay in the token.  Fuel `s.length + 1` bounds the recursion. -/
def splitPrivTokensF : Nat → Str → Str → List Str
  | 0, cur, _ => [cur.reverse]
  | _, cur, [] => [cur.reverse]
  | f + 1, cur, ',' :: rest =>
    let rest2 := rest.dropWhile isPySpace
    if lookaheadOpenBeforeClose rest2 then cur.reverse :: splitPrivTokensF f [] rest2
    else splitPrivTokensF f (',' :: cur) rest
  | f + 1, cur, c :: rest => splitPrivTokensF f (c :: cur) rest

/-- Comma-splitting outside parentheses, as the source's regex split. -/
def splitPrivTokens (s : Str) : List Str := splitPrivTokensF (s.length + 1) [] s

/-- Suffix after the last `)` of a string known to contain one. -/
def afterLastClose (s : Str) : Str := (s.reverse.takeWhile (· ≠ ')')).reverse

/-- Scan of `re.sub(r'\s*\(.*\)', '', s)`: at the first `(` that has a later
`)`, drop the whitespace run before it and everything up to the last `)` of
the string; with no such `(`, the string is unchanged. -/
def reSubParensF : Str → Str → Str
  | acc, [] => acc.reverse
  | acc, '(' :: rest =>
    if rest.contains ')' then (acc.dropWhile isPySpace).reverse ++ afterLastClose rest
    else acc.reverse ++ '(' :: rest
  | acc, c :: rest => reSubParensF (c :: acc) rest

/-- Column-list removal from a privilege token (`re.sub(r'\s*\(.*\)', '', s)`). -/
def reSubParens (s : Str) : Str := reSubParensF [] s

/-- Python dict assignment on an insertion-ordered association list: replace
in place when the key exists, append otherwise. -/
def assocSet (m : List (Str × α)) (k : Str) (v : α) : List (Str × α) :=
  match m with
  | [] => [(k, v)]
  | (k', v') :: rest => if k' = k then (k, v) :: rest else (k', v') :: assocSet rest k v

/-- Decoding of a single `/`-separated segment of a privilege specification:
split scope from privilege list at the last `:` (`none` embeds the
`IndexError` when there is no `:`), split the scope at the last `.`, peel a
`FUNCTION `/`PROCEDURE ` qualifier, quote non-`*` sides, uppercase the
privilege list and split it (regex split when a `(` is present).  Returns the
scope, the token list, the tokens contributed to the running `privs`
accumulator, and whether the parenthesis branch was taken. -/
def processSegment (quote : Char) (item : Str) :
    Option (Str × List Str × List Str × Bool) :=
  match rsplitOnce ':' (stripWs item) with
  | none => none
  | some (scopePart, privPart) =>
    let dbpriv : List Str := match rsplitOnce '.' scopePart with
      | none => [scopePart]
      | some (l, r) => [l, r]
    let first := dbpriv.getD 0 []
    let qualified := match splitFirst ' ' first with
      | some (p0, p1) =>
        if p0 = ("FUNCTION").data ∨ p0 = ("PROCEDURE").data
        then (p0 ++ [' '], p1) else (([] : Str), first)
      | none => (([] : Str), first)
    let dbpriv := dbpriv.set 0 qualified.2
    let dbpriv := dbpriv.map (fun side =>
      if stripChar '`' side ≠ ("*").data
      then quote :: (stripChar '`' side ++ [quote]) else side)
    let scope := qualified.1 ++ joinWith ((".").data) dbpriv
    let privU := strUpper privPart
    if privU.contains '(' then
      let toks := splitPrivTokens privU
      some (scope, toks, toks.map reSubParens, true)
    else
      let toks := splitOnChar ',' privU
      some (scope, toks, toks, false)

/-- The decoding loop shared by both `privileges_unpack` variants: per
segment, update the output map with the normalized tokens and the `privs`
accumulator (appending in the parenthesis branch, rebinding otherwise); when
a validation set is supplied, fail on the first iteration whose accumulated
tokens leave it, naming the offending tokens (the source raises with the
frozenset difference; the token list standing for that set may repeat an
offending token). -/
def unpackLoop (quote : Char) (valid : Option (List Str)) :
    List Str → List (Str × List Str) → List Str →
    Except UnpackErr (List (Str × List Str))
  | [], out, _ => .ok out
  | item :: rest, out, privs =>
    match processSegment quote item with
    | none => .error .indexError
    | some (scope, toks, own, parenBranch) =>
      let privs := if parenBranch then privs ++ own else own
      let out := assocSet out scope (normalize_col_grants toks)
      match valid with
      | none => unpackLoop quote valid rest out privs
      | some vp =>
        let bad := privs.filter (fun t => ! vp.contains t)
        if bad.isEmpty then unpackLoop quote valid rest out privs
        else .error (.invalidPrivs bad)

/-- Identifier quote selection of both `privileges_unpack` variants: double
quote under ANSI `sql_mode`, backtick otherwise. -/
def quoteOf (mode : Str) : Char := if mode = ("ANSI").data then '"' else '`'

/-- `privileges_unpack(priv, mode, ensure_usage)` of
`plugins/module_utils/user.py` (the role path): no token validation; a `*.*`
scope with `USAGE` is appended when absent unless the caller opts out. -/
def privileges_unpack (priv : Str) (mode : Str) (ensure_usage : Bool) :
    Except UnpackErr (List (Str × List Str)) :=
  match unpackLoop (quoteOf mode) none (splitOnChar '/' (stripWs priv)) [] [] with
  | .error e => .error e
  | .ok output =>
    .ok (if ensure_usage ∧ output.lookup (("*.*").data) = none
      then output ++ [((("*.*").data), [("USAGE").data])] else output)
/-- The `VALID_PRIVS` privilege allow-list of `plugins/modules/mysql_user.py`,
in source order. -/
def VALID_PRIVS : List Str :=
  [("CREATE").data,
   ("DROP").data,
   ("GRANT").data,
   ("GRANT OPTION").data,
   ("LOCK TABLES").data,
   ("REFERENCES").data,
   ("EVENT").data,
   ("ALTER").data,
   ("DELETE").data,
   ("INDEX").data,
   ("INSERT").data,
   ("SELECT").data,
   ("UPDATE").data,
   ("CREATE TEMPORARY TABLES").data,
   ("TRIGGER").data,
   ("CREATE VIEW").data,
   ("SHOW VIEW").data,
   ("ALTER ROUTINE").data,
   ("CREATE ROUTINE").data,
   ("EXECUTE").data,
   ("FILE").data,
   ("CREATE TABLESPACE").data,
   ("CREATE USER").data,
   ("PROCESS").data,
   ("PROXY").data,
   ("RELOAD").data,
   ("REPLICATION CLIENT").data,
   ("REPLICATION SLAVE").data,
   ("SHOW DATABASES").data,
   ("SHUTDOWN").data,
   ("SUPER").data,
   ("ALL").data,
   ("ALL PRIVILEGES").data,
   ("USAGE").data,
   ("REQUIRESSL").data,
   ("CREATE ROLE").data,
   ("DROP ROLE").data,
   ("APPLICATION_PASSWORD_ADMIN").data,
   ("AUDIT_ADMIN").data,
   ("BACKUP_ADMIN").data,
   ("BINLOG_ADMIN").data,
   ("BINLOG_ENCRYPTION_ADMIN").data,
   ("CLONE_ADMIN").data,
   ("CONNECTION_ADMIN").data,
   ("ENCRYPTION_KEY_ADMIN").data,
   ("FIREWALL_ADMIN").data,
   ("FIREWALL_USER").data,
   ("GROUP_REPLICATION_ADMIN").data,
   ("INNODB_REDO_LOG_ARCHIVE").data,
   ("NDB_STORED_USER").data,
   ("PERSIST_RO_VARIABLES_ADMIN").data,
   ("REPLICATION_APPLIER").data,
   ("REPLICATION_SLAVE_ADMIN").data,
   ("RESOURCE_GROUP_ADMIN").data,
   ("RESOURCE_GROUP_USER").data,
   ("ROLE_ADMIN").data,
   ("SESSION_VARIABLES_ADMIN").data,
   ("SET_USER_ID").data,
   ("SYSTEM_USER").data,
   ("SYSTEM_VARIABLES_ADMIN").data,
   ("SYSTEM_USER").data,
   ("TABLE_ENCRYPTION_ADMIN").data,
   ("VERSION_TOKEN_ADMIN").data,
   ("XA_RECOVER_ADMIN").data,
   ("LOAD FROM S3").data,
   ("SELECT INTO S3").data,
   ("INVOKE LAMBDA").data,
   ("ALTER ROUTINE").data,
   ("BINLOG ADMIN").data,
   ("BINLOG MONITOR").data,
   ("BINLOG REPLAY").data,
   ("CONNECTION ADMIN").data,
   ("READ_ONLY ADMIN").data,
   ("REPLICATION MASTER ADMIN").data,
   ("REPLICATION SLAVE ADMIN").data,
   ("SET USER").data,
   ("SHOW_ROUTINE").data,
   ("SLAVE MONITOR").data,
   ("REPLICA MONITOR").data]

/-- `privileges_unpack(priv, mode)` of `plugins/modules/mysql_user.py` (the
user-management path): same decoding, but every iteration checks the
accumulated tokens against `VALID_PRIVS`, and the `*.*`/`USAGE` entry is
always ensured. -/
def privileges_unpack_user (priv : Str) (mode : Str) :
    Except UnpackErr (List (Str × List Str)) :=
  match unpackLoop (quoteOf mode) (some VALID_PRIVS) (splitOnChar '/' (stripWs priv)) [] [] with
  | .error e => .error e
  | .ok output =>
    .ok (if output.lookup (("*.*").data) = none
      then output ++ [((("*.*").data), [("USAGE").data])] else output)

/-- Lookup distributes over append when the key is absent on the left. -/
theorem lookup_append_of_none {α : Type} (m l : List (Str × α)) (k : Str)
    (h : m.lookup k = none) : (m ++ l).lookup k = l.lookup k := by
  induction m with
  | nil => simp
  | cons e t ih =>
    simp only [List.lookup, List.cons_append] at h ⊢
    cases hk : (k == e.1) with
    | true => simp [hk] at h
    | false =>
      rw [hk] at h
      simp only []
      exact ih h

/-- C6: decoding with `ensure_usage = true` appends a `*.*` scope carrying
`USAGE` exactly when the decoded map (which `ensure_usage = false` returns
unchanged, synthesizing nothing) has no explicit `*.*` entry; every
`ensure_usage = true` result contains a `*.*` entry; and the concrete
backtick-mode example decodes to exactly the claimed map. -/
theorem C6_usage_synthesis :
    (∀ (priv mode : Str) (m : List (Str × List Str)),
      privileges_unpack priv mode false = .ok m →
      privileges_unpack priv mode true =
        .ok (if m.lookup (("*.*").data) = none
          then m ++ [((("*.*").data), [("USAGE").data])] else m)) ∧
    (∀ (priv mode : Str) (m : List (Str × List Str)),
      privileges_unpack priv mode true = .ok m →
      m.lookup (("*.*").data) ≠ none) ∧
    privileges_unpack (("db1.*:SELECT,UPDATE/db2.*:ALL").data) (("NOTANSI").data)
        true =
      .ok [((("`db1`.*").data), [("SELECT").data, ("UPDATE").data]),
           ((("`db2`.*").data), [("ALL").data]),
           ((("*.*").data), [("USAGE").data])] := by
  refine ⟨?_, ?_, by decide⟩
  · intro priv mode m h
    unfold privileges_unpack at h ⊢
    cases hl : unpackLoop (quoteOf mode) none (splitOnChar '/' (stripWs priv)) [] [] with
    | error e => rw [hl] at h; exact absurd h (by simp)
    | ok out =>
      simp only [hl] at h ⊢
      simp only [false_and, if_false, Except.ok.injEq] at h
      subst h
      by_cases hu : out.lookup (("*.*").data) = none
      · simp [hu]
      · simp [hu]
  · intro priv mode m h
    unfold privileges_unpack at h
    cases hl : unpackLoop (quoteOf mode) none (splitOnChar '/' (stripWs priv)) [] [] with
    | error e => rw [hl] at h; exact absurd h (by simp)
    | ok out =>
      rw [hl] at h
      simp only [true_and, Except.ok.injEq] at h
      by_cases hu : out.lookup (("*.*").data) = none
      · rw [if_pos hu] at h
        subst h
        rw [lookup_append_of_none _ _ _ hu]
        simp [List.lookup]
      · rw [if_neg hu] at h
        subst h
        exact hu

/-- C6 witness: the synthesis branch applied to a concrete specification with
no explicit `*.*` scope. -/
theorem C6_usage_synthesis_witness :
    privileges_unpack (("db.*:SELECT").data) (("NOTANSI").data) true =
      .ok [((("`db`.*").data), [("SELECT").data]),
           ((("*.*").data), [("USAGE").data])] :=
  C6_usage_synthesis.1 (("db.*:SELECT").data) (("NOTANSI").data)
    [((("`db`.*").data), [("SELECT").data])] (by decide)

/-- Characterization of the substring test as an occurrence decomposition. -/
theorem containsSub_iff_exists (s pat : Str) :
    containsSub s pat = true ↔ ∃ l r, s = l ++ pat ++ r := by
  induction s with
  | nil =>
    simp only [containsSub]
    constructor
    · intro h
      exact ⟨[], [], by simp [List.isEmpty_iff.mp h]⟩
    · rintro ⟨l, r, h⟩
      rw [List.isEmpty_iff]
      rcases List.append_eq_nil.mp h.symm with ⟨h1, h2⟩
      exact (List.append_eq_nil.mp h1).2
  | cons c rest ih =>
    rw [containsSub, Bool.or_eq_true, ih]
    constructor
    · rintro (hp | ⟨l, r, h⟩)
      · rcases List.isPrefixOf_iff_prefix.mp hp with ⟨t, ht⟩
        exact ⟨[], t, by simp [ht]⟩
      · exact ⟨c :: l, r, by simp [h]⟩
    · rintro ⟨l, r, h⟩
      cases l with
      | nil =>
        left
        simp only [List.nil_append] at h
        exact List.isPrefixOf_iff_prefix.mpr ⟨r, h.symm⟩
      | cons d t =>
        right
        simp only [List.cons_append, List.cons.injEq] at h
        exact ⟨t, r, h.2⟩

/-- A pattern occurs in any string it prefixes. -/
theorem containsSub_prefix (pat r : Str) : containsSub (pat ++ r) pat = true :=
  (containsSub_iff_exists _ _).mpr ⟨[], r, by simp⟩

/-- A pattern containing a character absent from the string does not occur. -/
theorem containsSub_false_of_not_mem {s pat : Str} {c : Char}
    (hc : c ∈ pat) (hs : c ∉ s) : containsSub s pat = false := by
  cases h : containsSub s pat with
  | false => rfl
  | true =>
    rcases (containsSub_iff_exists _ _).mp h with ⟨l, r, hd⟩
    exact absurd (by simp [hd, hc] : c ∈ s) hs

/-- Splitting a string at the unique occurrence of a marker character. -/
theorem append_cons_unique {c : Char} {l1 r1 l2 r2 : Str}
    (h : l1 ++ c :: r1 = l2 ++ c :: r2) (h1 : c ∉ l1) (h2 : c ∉ l2) :
    l1 = l2 ∧ r1 = r2 := by
  induction l1 generalizing l2 with
  | nil =>
    cases l2 with
    | nil => simpa using h
    | cons d t =>
      simp only [List.nil_append, List.cons_append, List.cons.injEq] at h
      exact absurd (by simp [h.1]) h2
  | cons d t ih =>
    cases l2 with
    | nil =>
      simp only [List.cons_append, List.nil_append, List.cons.injEq] at h
      exact absurd (by simp [h.1]) h1
    | cons e t2 =>
      simp only [List.cons_append, List.cons.injEq] at h
      have := @ih t2 h.2 (by simp at h1; exact h1.2) (by simp at h2; exact h2.2)
      exact ⟨by rw [h.1, this.1], this.2⟩

/-- Occurrence of a `(`-terminated pattern in a string with a single `(`:
precisely when the pattern body is a suffix of the prefix before the `(`. -/
theorem containsSub_single_paren {u w q : Str}
    (hu : '(' ∉ u) (hw : '(' ∉ w) (hq : '(' ∉ q) :
    containsSub (u ++ '(' :: w) (q ++ [ '(' ]) = true ↔ q <:+ u := by
  constructor
  · intro h
    rcases (containsSub_iff_exists _ _).mp h with ⟨l, r, hd⟩
    have hd' : u ++ '(' :: w = (l ++ q) ++ '(' :: r := by
      rw [hd]
      simp
    clear hd
    rename' hd' => hd
    have hl : '(' ∉ l := by
      intro hmem
      have hcount : ('(' :: r).count '(' ≥ 1 := by simp [List.count_cons]
      have h1 : (u ++ '(' :: w).count '(' = 1 := by
        simp [List.count_append, List.count_cons,
          List.count_eq_zero_of_not_mem hu, List.count_eq_zero_of_not_mem hw]
      rw [hd] at h1
      have hlc : l.count '(' ≥ 1 := List.one_le_count_iff.mpr hmem
      simp [List.count_append, List.count_cons] at h1
      omega
    have := append_cons_unique hd.symm (by
      intro hm
      rcases List.mem_append.mp hm with hm | hm
      · exact hl hm
      · exact hq hm) hu
    exact ⟨l, this.1⟩
  · rintro ⟨t, ht⟩
    refine (containsSub_iff_exists _ _).mpr ⟨t, w, ?_⟩
    rw [← ht]
    simp

/-- Strict string comparison is asymmetric. -/
theorem strLt_asymm {a b : Str} (h : strLt a b = true) : strLt b a = false := by
  induction a generalizing b with
  | nil =>
    cases b with
    | nil => simp [strLt] at h
    | cons c t => simp [strLt]
  | cons c t ih =>
    cases b with
    | nil => simp [strLt] at h
    | cons d u =>
      rw [strLt] at h ⊢
      by_cases hcd : c < d
      · rw [if_neg (lt_asymm hcd), if_pos hcd]
      · by_cases hdc : d < c
        · rw [if_neg hcd, if_pos hdc] at h
          exact absurd h (by simp)
        · rw [if_neg hcd, if_neg hdc] at h
          rw [if_neg hdc, if_neg hcd]
          exact ih h

/-- `dropWhile` is the identity when no element satisfies the predicate. -/
theorem dropWhile_eq_self_of (p : Char → Bool) (l : Str)
    (h : ∀ x ∈ l, p x = false) : l.dropWhile p = l := by
  cases l with
  | nil => rfl
  | cons c t =>
    rw [List.dropWhile_cons, h c (by simp)]
    simp

/-- `splitOnChar` on a separator-free string. -/
theorem splitOnChar_not_mem {c : Char} {s : Str} (h : c ∉ s) :
    splitOnChar c s = [s] := by
  induction s with
  | nil => rfl
  | cons d t ih =>
    rw [splitOnChar]
    have hd : ¬ d = c := fun he => h (by simp [he])
    rw [if_neg hd, ih (fun hm => h (by simp [hm]))]

/-- `splitOnChar` at the first separator occurrence. -/
theorem splitOnChar_append_cons {c : Char} {u : Str} (w : Str) (h : c ∉ u) :
    splitOnChar c (u ++ c :: w) = u :: splitOnChar c w := by
  induction u with
  | nil =>
    rw [List.nil_append, splitOnChar, if_pos rfl]
  | cons d t ih =>
    rw [List.cons_append, splitOnChar]
    have hd : ¬ d = c := fun he => h (by simp [he])
    rw [if_neg hd, ih (fun hm => h (by simp [hm]))]

/-- `rstripChar` on a string not ending in the character. -/
theorem rstripChar_not_mem {c : Char} {s : Str} (h : c ∉ s) :
    rstripChar c s = s := by
  unfold rstripChar
  rw [dropWhile_eq_self_of _ _ (fun x hx => by
    simp only [decide_eq_false_iff_not]
    intro he
    exact h (by simpa [he] using List.mem_reverse.mp hx))]
  simp

/-- `rstripChar` removes a trailing occurrence. -/
theorem rstripChar_append {c : Char} (l : Str) :
    rstripChar c (l ++ [c]) = rstripChar c l := by
  unfold rstripChar
  rw [List.reverse_append]
  simp [List.dropWhile_cons]

/-- Whitespace stripping is the identity on whitespace-free strings. -/
theorem stripWs_no_ws {s : Str} (h : ∀ x ∈ s, isPySpace x = false) :
    stripWs s = s := by
  unfold stripWs
  rw [dropWhile_eq_self_of _ _ h,
    dropWhile_eq_self_of _ _ (fun x hx => h x (List.mem_reverse.mp hx))]
  simp

/-- Whitespace stripping drops a leading blank. -/
theorem stripWs_cons_space (s : Str) : stripWs (' ' :: s) = stripWs s := by
  unfold stripWs
  rw [List.dropWhile_cons]
  simp [isPySpace]

/-- Backtick stripping is the identity on backtick-free strings. -/
theorem stripChar_not_mem {c : Char} {s : Str} (h : c ∉ s) :
    stripChar c s = s := by
  unfold stripChar
  have h1 : s.dropWhile (fun x => decide (x = c)) = s :=
    dropWhile_eq_self_of _ _ (fun x hx => by
      simp only [decide_eq_false_iff_not]
      exact fun he => h (he ▸ hx))
  rw [h1, dropWhile_eq_self_of _ _ (fun x hx => by
      simp only [decide_eq_false_iff_not]
      exact fun he => h (he ▸ List.mem_reverse.mp hx))]
  simp

/-- Plain characters: ASCII letters and digits, the alphabet of realistic
column and privilege names. -/
def plainChar (c : Char) : Bool := c.isAlpha || c.isDigit

/-- Plain characters are none of the structural characters of the
column-grant syntax. -/
theorem plain_no_special {c : Char} (h : plainChar c = true) :
    c ≠ '(' ∧ c ≠ ')' ∧ c ≠ ',' ∧ c ≠ '`' ∧ isPySpace c = false := by
  refine ⟨fun he => by subst he; exact absurd h (by decide),
    fun he => by subst he; exact absurd h (by decide),
    fun he => by subst he; exact absurd h (by decide),
    fun he => by subst he; exact absurd h (by decide), ?_⟩
  cases hsp : isPySpace c with
  | false => rfl
  | true =>
    exfalso
    simp only [isPySpace, decide_eq_true_eq] at hsp
    rcases hsp with he | he | he | he <;>
      (subst he; exact absurd h (by decide))

theorem assoc_pat (x y : Str) : x ++ (" (").data ++ y = (x ++ [ ' ' ]) ++ '(' :: y := by
  simp

/-- One repair pass of `normalize_col_grants`. -/
def colPass (privs : List Str) (grant : Str) : List Str :=
  match has_grant_on_col privs grant with
  | some (s, e) => handle_grant_on_col privs s e
  | none => privs

theorem normalize_eq_fold (privs : List Str) :
    normalize_col_grants privs = colGrantNames.foldl colPass privs := rfl

theorem colPass_id {privs : List Str} {grant : Str}
    (h : has_grant_on_col privs grant = none) : colPass privs grant = privs := by
  simp [colPass, h]

/-- A scan that never matches the pattern yields no range. -/
theorem hgoc_none {privs : List Str} {grant : Str}
    (h : ∀ p ∈ privs, containsSub p (grant ++ (" (").data) = false) :
    has_grant_on_col privs grant = none := by
  unfold has_grant_on_col
  have aux : ∀ l, (∀ p ∈ l, containsSub p (grant ++ (" (").data) = false) →
      ∀ n, hasGrantOnColAux (grant ++ (" (").data) l n none = none := by
    intro l
    induction l with
    | nil => intro _ n; rfl
    | cons p rest ih =>
      intro hl n
      rw [hasGrantOnColAux]
      simp only [hl p (by simp), if_false]
      exact ih (fun x hx => hl x (by simp [hx])) (n + 1)
  exact aux _ h 0

/-- Pattern occurrence with a unique `(` reduces to a suffix test. -/
theorem notContains_pat {u q w : Str} (hu : '(' ∉ u) (hw : '(' ∉ w)
    (hq : '(' ∉ q) (hsuf : ¬ q <:+ u) :
    containsSub (u ++ '(' :: w) (q ++ [ '(' ]) = false := by
  cases h : containsSub (u ++ '(' :: w) (q ++ [ '(' ]) with
  | false => rfl
  | true => exact absurd ((containsSub_single_paren hu hw hq).mp h) hsuf

/-- Scan result on a split column grant: range `(0, 1)`. -/
theorem hgoc_pair {e0 e1 : Str} {grant : Str}
    (h0 : containsSub e0 (grant ++ (" (").data) = true)
    (h0c : e0.contains ')' = false)
    (h1 : containsSub e1 (grant ++ (" (").data) = false)
    (h1c : e1.contains ')' = true) :
    has_grant_on_col [e0, e1] grant = some (0, 1) := by
  unfold has_grant_on_col
  rw [hasGrantOnColAux]
  simp only [h0, if_true, h0c]
  rw [hasGrantOnColAux]
  simp [h1, h1c]
  intro hnot
  exact absurd (List.elem_iff.mp h1c) hnot

/-- Scan result on a single complete column grant: range `(0, 0)`. -/
theorem hgoc_single {m : Str} {grant : Str}
    (h0 : containsSub m (grant ++ (" (").data) = true)
    (h0c : m.contains ')' = true) :
    has_grant_on_col [m] grant = some (0, 0) := by
  unfold has_grant_on_col
  rw [hasGrantOnColAux]
  simp [h0, h0c]
  intro hnot
  exact absurd (List.elem_iff.mp h0c) hnot


/-- Ordered pair selection mirroring a two-element sort. -/
def sortedPair (a b : Str) : Str × Str :=
  if strLe a b then (a, b) else (b, a)

theorem pySort_pair (a b : Str) :
    pySortBy strLe [a, b] = [(sortedPair a b).1, (sortedPair a b).2] := by
  unfold pySortBy insSorted sortedPair
  by_cases h : strLe a b <;> simp [h, pySortBy, insSorted]

theorem sortedPair_le (a b : Str) :
    strLe (sortedPair a b).1 (sortedPair a b).2 = true := by
  unfold sortedPair
  by_cases h : strLe a b
  · simp [h]
  · simp only [h, if_false]
    have hlt : strLt b a = true := by
      unfold strLe at h
      simpa using h
    simp [strLe, strLt_asymm hlt]

/-- Membership consequences of plainness. -/
theorem plain_list {a : Str} (ha : ∀ c ∈ a, plainChar c = true) :
    '(' ∉ a ∧ ')' ∉ a ∧ ',' ∉ a ∧ '`' ∉ a ∧ (∀ x ∈ a, isPySpace x = false) := by
  refine ⟨fun hm => (plain_no_special (ha _ hm)).1 rfl,
    fun hm => (plain_no_special (ha _ hm)).2.1 rfl,
    fun hm => (plain_no_special (ha _ hm)).2.2.1 rfl,
    fun hm => (plain_no_special (ha _ hm)).2.2.2.1 rfl,
    fun x hm => (plain_no_special (ha x hm)).2.2.2.2⟩

/-- Full computation of `sort_column_order` on a well-formed two-column
grant body. -/
theorem sort_column_pair (g a b : Str)
    (hg : '(' ∉ g)
    (ha : ∀ c ∈ a, plainChar c = true) (hb : ∀ c ∈ b, plainChar c = true) :
    sort_column_order ((g ++ [ ' ' ]) ++ '(' :: (a ++ (", ").data ++ b ++ [ ')' ])) =
      (g ++ [ ' ' ]) ++
        '(' :: ((sortedPair a b).1 ++ (", ").data ++ (sortedPair a b).2 ++ [ ')' ]) := by
  obtain ⟨hao, hac, ham, hab, haw⟩ := plain_list ha
  obtain ⟨hbo, hbc, hbm, hbb, hbw⟩ := plain_list hb
  unfold sort_column_order
  have hsplit1 : splitOnChar '(' ((g ++ [ ' ' ]) ++ '(' :: (a ++ (", ").data ++ b ++ [ ')' ])) =
      (g ++ [ ' ' ]) :: [a ++ (", ").data ++ b ++ [ ')' ]] := by
    rw [splitOnChar_append_cons _ (by
      intro hm
      rcases List.mem_append.mp hm with hm | hm
      · exact hg hm
      · simp at hm)]
    rw [splitOnChar_not_mem (by
      intro hm
      rcases List.mem_append.mp hm with hm | hm
      · rcases List.mem_append.mp hm with hm | hm
        · rcases List.mem_append.mp hm with hm | hm
          · exact hao hm
          · simp at hm
        · exact hbo hm
      · simp at hm)]
  rw [hsplit1]
  simp only [List.getD_cons_zero, List.getD_cons_succ]
  have hrstrip : rstripChar ')' (a ++ (", ").data ++ b ++ [ ')' ]) =
      a ++ (", ").data ++ b := by
    rw [show a ++ (", ").data ++ b ++ [ ')' ] = (a ++ (", ").data ++ b) ++ [ ')' ] by simp,
      rstripChar_append]
    exact rstripChar_not_mem (by
      intro hm
      rcases List.mem_append.mp hm with hm | hm
      · rcases List.mem_append.mp hm with hm | hm
        · exact hac hm
        · simp at hm
      · exact hbc hm)
  rw [hrstrip]
  have hsplit2 : splitOnChar ',' (a ++ (", ").data ++ b) = [a, ' ' :: b] := by
    rw [show a ++ (", ").data ++ b = a ++ ',' :: (' ' :: b) by simp, splitOnChar_append_cons _ ham]
    rw [splitOnChar_not_mem (by
      intro hm
      simp only [List.mem_cons] at hm
      rcases hm with hm | hm
      · simp at hm
      · exact hbm hm)]
  rw [hsplit2]
  have hstripa : stripChar '`' (stripWs a) = a := by
    rw [stripWs_no_ws haw, stripChar_not_mem hab]
  have hstripb : stripChar '`' (stripWs (' ' :: b)) = b := by
    rw [stripWs_cons_space, stripWs_no_ws hbw, stripChar_not_mem hbb]
  simp only [List.map, hstripa, hstripb]
  rw [pySort_pair]
  simp [joinWith]

/-- Containment in boolean form. -/
theorem contains_eq_false_of_not_mem {c : Char} {l : Str} (h : c ∉ l) :
    l.contains c = false := by
  cases hc : l.contains c with
  | false => rfl
  | true => exact absurd (List.elem_iff.mp hc) h

/-- A pass for a different privilege name leaves a split column grant
untouched. -/
theorem wrongPass_pair {g g' a b : Str}
    (hg : '(' ∉ g) (hg' : '(' ∉ g')
    (ha : ∀ c ∈ a, plainChar c = true) (hb : ∀ c ∈ b, plainChar c = true)
    (hsuf : ¬ (g' ++ [ ' ' ]) <:+ (g ++ [ ' ' ])) :
    colPass [(g ++ [ ' ' ]) ++ '(' :: a, b ++ [ ')' ]] g' =
      [(g ++ [ ' ' ]) ++ '(' :: a, b ++ [ ')' ]] := by
  obtain ⟨hao, _, _, _, _⟩ := plain_list ha
  obtain ⟨hbo, _, _, _, _⟩ := plain_list hb
  refine colPass_id (hgoc_none ?_)
  intro p hp
  have hpat : g' ++ (" (").data = (g' ++ [ ' ' ]) ++ [ '(' ] := by simp
  rw [hpat]
  rcases List.mem_cons.mp hp with hp | hp
  · subst hp
    exact notContains_pat (by
        intro hm
        rcases List.mem_append.mp hm with hm | hm
        · exact hg hm
        · simp at hm) hao (by
        intro hm
        rcases List.mem_append.mp hm with hm | hm
        · exact hg' hm
        · simp at hm) hsuf
  · rcases List.mem_cons.mp hp with hp | hp
    · subst hp
      exact containsSub_false_of_not_mem (c := '(') (by simp) (by
        intro hm
        rcases List.mem_append.mp hm with hm | hm
        · exact hbo hm
        · simp at hm)
    · simp at hp

/-- A pass for a different privilege name leaves a single well-formed column
grant untouched. -/
theorem wrongPass_single {g g' w : Str}
    (hg : '(' ∉ g) (hg' : '(' ∉ g') (hw : '(' ∉ w)
    (hsuf : ¬ (g' ++ [ ' ' ]) <:+ (g ++ [ ' ' ])) :
    colPass [(g ++ [ ' ' ]) ++ '(' :: w] g' = [(g ++ [ ' ' ]) ++ '(' :: w] := by
  refine colPass_id (hgoc_none ?_)
  intro p hp
  have hpat : g' ++ (" (").data = (g' ++ [ ' ' ]) ++ [ '(' ] := by simp
  rw [hpat]
  rcases List.mem_cons.mp hp with hp | hp
  · subst hp
    exact notContains_pat (by
        intro hm
        rcases List.mem_append.mp hm with hm | hm
        · exact hg hm
        · simp at hm) hw (by
        intro hm
        rcases List.mem_append.mp hm with hm | hm
        · exact hg' hm
        · simp at hm) hsuf
  · simp at hp

theorem sortedPair_of_le {x y : Str} (h : strLe x y = true) :
    sortedPair x y = (x, y) := by
  simp [sortedPair, h]

/-- The pass for the matching privilege name merges and sorts a split
column grant. -/
theorem rightPass_pair {g a b : Str}
    (hgo : '(' ∉ g) (hgc : ')' ∉ g)
    (ha : ∀ c ∈ a, plainChar c = true) (hb : ∀ c ∈ b, plainChar c = true) :
    colPass [(g ++ [ ' ' ]) ++ '(' :: a, b ++ [ ')' ]] g =
      [(g ++ [ ' ' ]) ++
        '(' :: ((sortedPair a b).1 ++ (", ").data ++ (sortedPair a b).2 ++ [ ')' ])] := by
  obtain ⟨hao, hac, _, _, _⟩ := plain_list ha
  obtain ⟨hbo, hbc, _, _, _⟩ := plain_list hb
  have h0 : containsSub ((g ++ [ ' ' ]) ++ '(' :: a) (g ++ (" (").data) = true := by
    rw [show (g ++ [ ' ' ]) ++ '(' :: a = (g ++ (" (").data) ++ a by simp]
    exact containsSub_prefix _ _
  have h0c : ((g ++ [ ' ' ]) ++ '(' :: a).contains ')' = false := by
    refine contains_eq_false_of_not_mem ?_
    intro hm
    rcases List.mem_append.mp hm with hm | hm
    · rcases List.mem_append.mp hm with hm | hm
      · exact hgc hm
      · simp at hm
    · rcases List.mem_cons.mp hm with hm | hm
      · simp at hm
      · exact hac hm
  have h1 : containsSub (b ++ [ ')' ]) (g ++ (" (").data) = false := by
    refine containsSub_false_of_not_mem (c := '(') (by simp) ?_
    intro hm
    rcases List.mem_append.mp hm with hm | hm
    · exact hbo hm
    · simp at hm
  have h1c : (b ++ [ ')' ]).contains ')' = true :=
    List.elem_iff.mpr (by simp)
  unfold colPass
  rw [hgoc_pair h0 h0c h1 h1c]
  dsimp only
  unfold handle_grant_on_col
  rw [if_pos (by decide)]
  simp only [List.take_zero, List.drop_zero, List.nil_append, List.drop_succ_cons,
    List.drop_nil]
  have hjoin : joinWith ((", ").data)
      (List.take (1 + 1 - 0) [(g ++ [ ' ' ]) ++ '(' :: a, b ++ [ ')' ]]) =
      (g ++ [ ' ' ]) ++ '(' :: (a ++ (", ").data ++ b ++ [ ')' ]) := by
    simp [joinWith]
  rw [hjoin, sort_column_pair g a b hgo ha hb]
  simp

/-- The pass for the matching privilege name fixes an already-merged, sorted
column grant. -/
theorem rightPass_single {g c1 c2 : Str}
    (hgo : '(' ∉ g)
    (hc1 : ∀ c ∈ c1, plainChar c = true) (hc2 : ∀ c ∈ c2, plainChar c = true)
    (hle : strLe c1 c2 = true) :
    colPass [(g ++ [ ' ' ]) ++ '(' :: (c1 ++ (", ").data ++ c2 ++ [ ')' ])] g =
      [(g ++ [ ' ' ]) ++ '(' :: (c1 ++ (", ").data ++ c2 ++ [ ')' ])] := by
  have h0 : containsSub ((g ++ [ ' ' ]) ++ '(' :: (c1 ++ (", ").data ++ c2 ++ [ ')' ]))
      (g ++ (" (").data) = true := by
    rw [show (g ++ [ ' ' ]) ++ '(' :: (c1 ++ (", ").data ++ c2 ++ [ ')' ]) =
      (g ++ (" (").data) ++ (c1 ++ (", ").data ++ c2 ++ [ ')' ]) by simp]
    exact containsSub_prefix _ _
  have h0c : ((g ++ [ ' ' ]) ++ '(' :: (c1 ++ (", ").data ++ c2 ++ [ ')' ])).contains ')' =
      true := List.elem_iff.mpr (by simp)
  unfold colPass
  rw [hgoc_single h0 h0c]
  dsimp only
  unfold handle_grant_on_col
  rw [if_neg (by decide)]
  simp only [List.getD_cons_zero, List.set]
  rw [sort_column_pair g c1 c2 hgo hc1 hc2, sortedPair_of_le hle]

/-- First normalization of a split two-token column grant: the two tokens are
merged into one sorted token. -/
theorem normalize_pair (g a b : Str) (hg : g ∈ colGrantNames)
    (ha : ∀ c ∈ a, plainChar c = true) (hb : ∀ c ∈ b, plainChar c = true) :
    normalize_col_grants [(g ++ [ ' ' ]) ++ '(' :: a, b ++ [ ')' ]] =
      [(g ++ [ ' ' ]) ++
        '(' :: ((sortedPair a b).1 ++ (", ").data ++ (sortedPair a b).2 ++ [ ')' ])] := by
  have hc1 : ∀ c ∈ (sortedPair a b).1, plainChar c = true := by
    unfold sortedPair
    by_cases h : strLe a b <;> simp [h] <;> assumption
  have hc2 : ∀ c ∈ (sortedPair a b).2, plainChar c = true := by
    unfold sortedPair
    by_cases h : strLe a b <;> simp [h] <;> assumption
  have hrest : '(' ∉ (sortedPair a b).1 ++ (", ").data ++ (sortedPair a b).2 ++ [ ')' ] := by
    intro hm
    rcases List.mem_append.mp hm with hm | hm
    · rcases List.mem_append.mp hm with hm | hm
      · rcases List.mem_append.mp hm with hm | hm
        · exact (plain_list hc1).1 hm
        · simp at hm
      · exact (plain_list hc2).1 hm
    · simp at hm
  rw [normalize_eq_fold]
  simp only [colGrantNames, List.mem_cons, List.not_mem_nil, or_false] at hg
  simp only [colGrantNames, List.foldl]
  rcases hg with hg | hg | hg | hg
  · subst hg
    rw [rightPass_pair (by decide) (by decide) ha hb,
      wrongPass_single (by decide) (by decide) hrest (by decide),
      wrongPass_single (by decide) (by decide) hrest (by decide),
      wrongPass_single (by decide) (by decide) hrest (by decide)]
  · subst hg
    rw [wrongPass_pair (by decide) (by decide) ha hb (by decide),
      rightPass_pair (by decide) (by decide) ha hb,
      wrongPass_single (by decide) (by decide) hrest (by decide),
      wrongPass_single (by decide) (by decide) hrest (by decide)]
  · subst hg
    rw [wrongPass_pair (by decide) (by decide) ha hb (by decide),
      wrongPass_pair (by decide) (by decide) ha hb (by decide),
      rightPass_pair (by decide) (by decide) ha hb,
      wrongPass_single (by decide) (by decide) hrest (by decide)]
  · subst hg
    rw [wrongPass_pair (by decide) (by decide) ha hb (by decide),
      wrongPass_pair (by decide) (by decide) ha hb (by decide),
      wrongPass_pair (by decide) (by decide) ha hb (by decide),
      rightPass_pair (by decide) (by decide) ha hb]

/-- Second normalization: a merged, sorted column grant is a fixed point. -/
theorem normalize_merged (g c1 c2 : Str) (hg : g ∈ colGrantNames)
    (hc1 : ∀ c ∈ c1, plainChar c = true) (hc2 : ∀ c ∈ c2, plainChar c = true)
    (hle : strLe c1 c2 = true) :
    normalize_col_grants
        [(g ++ [ ' ' ]) ++ '(' :: (c1 ++ (", ").data ++ c2 ++ [ ')' ])] =
      [(g ++ [ ' ' ]) ++ '(' :: (c1 ++ (", ").data ++ c2 ++ [ ')' ])] := by
  have hrest : '(' ∉ c1 ++ (", ").data ++ c2 ++ [ ')' ] := by
    intro hm
    rcases List.mem_append.mp hm with hm | hm
    · rcases List.mem_append.mp hm with hm | hm
      · rcases List.mem_append.mp hm with hm | hm
        · exact (plain_list hc1).1 hm
        · simp at hm
      · exact (plain_list hc2).1 hm
    · simp at hm
  rw [normalize_eq_fold]
  simp only [colGrantNames, List.mem_cons, List.not_mem_nil, or_false] at hg
  simp only [colGrantNames, List.foldl]
  rcases hg with hg | hg | hg | hg
  · subst hg
    rw [rightPass_single (by decide) hc1 hc2 hle,
      wrongPass_single (by decide) (by decide) hrest (by decide),
      wrongPass_single (by decide) (by decide) hrest (by decide),
      wrongPass_single (by decide) (by decide) hrest (by decide)]
  · subst hg
    rw [wrongPass_single (by decide) (by decide) hrest (by decide),
      rightPass_single (by decide) hc1 hc2 hle,
      wrongPass_single (by decide) (by decide) hrest (by decide),
      wrongPass_single (by decide) (by decide) hrest (by decide)]
  · subst hg
    rw [wrongPass_single (by decide) (by decide) hrest (by decide),
      wrongPass_single (by decide) (by decide) hrest (by decide),
      rightPass_single (by decide) hc1 hc2 hle,
      wrongPass_single (by decide) (by decide) hrest (by decide)]
  · subst hg
    rw [wrongPass_single (by decide) (by decide) hrest (by decide),
      wrongPass_single (by decide) (by decide) hrest (by decide),
      wrongPass_single (by decide) (by decide) hrest (by decide),
      rightPass_single (by decide) hc1 hc2 hle]

/-- C7 (amended): column-grant normalization is idempotent on split
two-token column grants over plain (alphanumeric) column names — the shape
the server's comma-splitting actually produces — for each of the four
column-capable privilege names; and the concrete example
`["SELECT (B", "A)"]` normalizes to `["SELECT (A, B)"]`.  (Idempotence for
arbitrary token lists is refuted by the counterexample theorem.) -/
theorem C7_normalize_idempotent :
    (∀ g ∈ colGrantNames, ∀ a b : Str,
      (∀ c ∈ a, plainChar c = true) → (∀ c ∈ b, plainChar c = true) →
      normalize_col_grants
          (normalize_col_grants [g ++ (" (").data ++ a, b ++ [ ')' ]]) =
        normalize_col_grants [g ++ (" (").data ++ a, b ++ [ ')' ]]) ∧
    normalize_col_grants [("SELECT (B").data, ("A)").data] =
      [("SELECT (A, B)").data] := by
  constructor
  · intro g hg a b ha hb
    have hc1 : ∀ c ∈ (sortedPair a b).1, plainChar c = true := by
      unfold sortedPair
      by_cases h : strLe a b <;> simp [h] <;> assumption
    have hc2 : ∀ c ∈ (sortedPair a b).2, plainChar c = true := by
      unfold sortedPair
      by_cases h : strLe a b <;> simp [h] <;> assumption
    rw [show g ++ (" (").data ++ a = (g ++ [ ' ' ]) ++ '(' :: a by simp]
    rw [normalize_pair g a b hg ha hb]
    exact normalize_merged g _ _ hg hc1 hc2 (sortedPair_le a b)
  · decide

/-- C7 witness: idempotence applied at the concrete split grant of the
claim's example. -/
theorem C7_normalize_idempotent_witness :
    normalize_col_grants
        (normalize_col_grants [("SELECT").data ++ (" (").data ++ ("B").data,
          ("A").data ++ [ ')' ]]) =
      normalize_col_grants [("SELECT").data ++ (" (").data ++ ("B").data,
        ("A").data ++ [ ')' ]] :=
  C7_normalize_idempotent.1 (("SELECT").data) (by decide) (("B").data)
    (("A").data) (by decide) (by decide)

/-- C7 counterexample: double application differs from single application on
a token list whose column name carries backticks and an inner blank — the
first pass strips the backticks and exposes the blank, the second pass then
strips the blank, so the claimed idempotence for arbitrary token lists fails. -/
theorem C7_normalize_idempotent_counterexample :
    normalize_col_grants
        (normalize_col_grants [("SELECT (`A `").data, ("B)").data]) ≠
      normalize_col_grants [("SELECT (`A `").data, ("B)").data] := by
  decide

/-- `splitFirst` finds nothing exactly on separator-free strings. -/
theorem splitFirst_none_iff {c : Char} {s : Str} :
    splitFirst c s = none ↔ c ∉ s := by
  induction s with
  | nil => simp [splitFirst]
  | cons d t ih =>
    rw [splitFirst]
    by_cases hd : d = c
    · subst hd
      simp
    · cases h : splitFirst c t with
      | none =>
        simp only [if_neg hd, h]
        simp only [List.mem_cons]
        constructor
        · rintro - (he | hm)
          · exact hd he.symm
          · exact ih.mp h hm
        · intro _
          trivial
      | some p =>
        simp only [if_neg hd, h]
        constructor
        · intro hc
          exact absurd hc (by simp)
        · intro hm
          exfalso
          have : c ∈ t := by
            by_contra hnm
            rw [ih.mpr hnm] at h
            exact absurd h (by simp)
          exact hm (by simp [this])

/-- `rsplitOnce` finds nothing exactly on separator-free strings. -/
theorem rsplitOnce_none_iff {c : Char} {s : Str} :
    rsplitOnce c s = none ↔ c ∉ s := by
  unfold rsplitOnce
  cases h : splitFirst c s.reverse with
  | none =>
    simp only []
    constructor
    · intro _
      intro hm
      exact absurd (splitFirst_none_iff.mp h) (by simp [hm])
    · intro _
      trivial
  | some p =>
    simp only []
    constructor
    · intro hc
      exact absurd hc (by simp)
    · intro hm
      exfalso
      have : splitFirst c s.reverse = none := splitFirst_none_iff.mpr (by simp [hm])
      rw [this] at h
      exact absurd h (by simp)

/-- Segment processing fails exactly when the stripped segment has no `:`. -/
theorem processSegment_none_iff {q : Char} {item : Str} :
    processSegment q item = none ↔ ':' ∉ stripWs item := by
  unfold processSegment
  cases h : rsplitOnce ':' (stripWs item) with
  | none =>
    simp only []
    exact ⟨fun _ => rsplitOnce_none_iff.mp h, fun _ => trivial⟩

  | some p =>
    simp only []
    constructor
    · intro hc
      exfalso
      by_cases hp : '(' ∈ strUpper p.2
      · simp [hp] at hc
      · simp [hp] at hc
    · intro hm
      exfalso
      rw [rsplitOnce_none_iff.mpr hm] at h
      exact absurd h (by simp)

/-- The unvalidated decoding loop succeeds on processable segments. -/
theorem unpackLoop_role_ok (quote : Char) :
    ∀ (segs : List Str) (out : List (Str × List Str)) (privs : List Str),
    (∀ seg ∈ segs, processSegment quote seg ≠ none) →
    ∃ m, unpackLoop quote none segs out privs = .ok m := by
  intro segs
  induction segs with
  | nil => exact fun out privs _ => ⟨out, rfl⟩
  | cons item rest ih =>
    intro out privs hwf
    rw [unpackLoop]
    cases h : processSegment quote item with
    | none => exact absurd h (hwf item (by simp))
    | some v =>
      obtain ⟨scope, toks, own, pb⟩ := v
      exact ih _ _ (fun seg hs => hwf seg (by simp [hs]))

/-- The validating decoding loop, on processable segments with all
previously accumulated tokens valid and some segment contributing an invalid
token, fails naming a non-empty set of invalid tokens. -/
theorem unpackLoop_user_bad (quote : Char) :
    ∀ (segs : List Str) (out : List (Str × List Str)) (privs : List Str),
    (∀ seg ∈ segs, processSegment quote seg ≠ none) →
    (∀ t ∈ privs, VALID_PRIVS.contains t = true) →
    (∃ seg ∈ segs, ∃ scope toks own pb,
      processSegment quote seg = some (scope, toks, own, pb) ∧
      ∃ t ∈ own, VALID_PRIVS.contains t = false) →
    ∃ bad, unpackLoop quote (some VALID_PRIVS) segs out privs =
        .error (.invalidPrivs bad) ∧ bad ≠ [] ∧
      ∀ t ∈ bad, VALID_PRIVS.contains t = false := by
  intro segs
  induction segs with
  | nil =>
    intro out privs _ _ hbad
    simp at hbad
  | cons item rest ih =>
    intro out privs hwf hvalid hbad
    rw [unpackLoop]
    cases h : processSegment quote item with
    | none => exact absurd h (hwf item (by simp))
    | some v =>
      obtain ⟨scope, toks, own, pb⟩ := v
      simp only []
      set privs2 := if pb then privs ++ own else own with hprivs2
      cases hempty : (privs2.filter (fun t => ! VALID_PRIVS.contains t)).isEmpty with
      | false =>
        refine ⟨privs2.filter (fun t => ! VALID_PRIVS.contains t), ?_, ?_, ?_⟩
        · simp [hempty]
        · intro hnil
          rw [hnil] at hempty
          simp at hempty
        · intro t ht
          have := List.of_mem_filter ht
          simpa using this
      | true =>
        have hvalid2 : ∀ t ∈ privs2, VALID_PRIVS.contains t = true := by
          intro t ht
          have := List.isEmpty_iff.mp hempty
          by_contra hc
          have htf : t ∈ privs2.filter (fun t => ! VALID_PRIVS.contains t) :=
            List.mem_filter.mpr ⟨ht, by simp [Bool.not_eq_true] at hc ⊢; exact hc⟩
          rw [this] at htf
          simp at htf
        have hbadrest : ∃ seg ∈ rest, ∃ scope toks own pb,
            processSegment quote seg = some (scope, toks, own, pb) ∧
            ∃ t ∈ own, VALID_PRIVS.contains t = false := by
          rcases hbad with ⟨seg, hseg, scope', toks', own', pb', hps, t, htown, htf⟩
          rcases List.mem_cons.mp hseg with hseg | hseg
          · subst hseg
            rw [h] at hps
            injection hps with hps
            exfalso
            have hown : own = own' := by
              have h1 := congrArg (fun x => x.2.2.1) hps
              simpa using h1
            subst hown
            have htp : t ∈ privs2 := by
              rw [hprivs2]
              cases pb <;> simp [htown]
            have := hvalid2 t htp
            rw [htf] at this
            exact absurd this (by simp)
          · exact ⟨seg, hseg, scope', toks', own', pb', hps, t, htown, htf⟩
        simp only [hempty, if_true]
        exact ih _ _ (fun seg hs => hwf seg (by simp [hs])) hvalid2 hbadrest

/-- C8 (amended): for every structurally well-formed privilege specification
(each `/`-segment still contains a `:` after stripping) that carries a
privilege token outside `VALID_PRIVS`, the user-management decode fails with
the invalid-privileges error naming a non-empty set of offending (invalid)
tokens, while the role-path decode returns a privilege map without error.
(For structurally broken specifications both paths raise `IndexError`; see
the counterexample theorem.) -/
theorem C8_validation_asymmetry (priv mode : Str)
    (hwf : ∀ seg ∈ splitOnChar '/' (stripWs priv), ':' ∈ stripWs seg)
    (hbad : ∃ seg ∈ splitOnChar '/' (stripWs priv), ∃ scope toks own pb,
      processSegment (quoteOf mode) seg = some (scope, toks, own, pb) ∧
      ∃ t ∈ own, VALID_PRIVS.contains t = false) :
    (∃ bad, privileges_unpack_user priv mode = .error (.invalidPrivs bad) ∧
      bad ≠ [] ∧ ∀ t ∈ bad, VALID_PRIVS.contains t = false) ∧
    (∃ m, privileges_unpack priv mode true = .ok m) := by
  have hwf' : ∀ seg ∈ splitOnChar '/' (stripWs priv),
      processSegment (quoteOf mode) seg ≠ none :=
    fun seg hs hn => (processSegment_none_iff.mp hn) (hwf seg hs)
  constructor
  · obtain ⟨bad, hb, hne, hinv⟩ :=
      unpackLoop_user_bad (quoteOf mode) (splitOnChar '/' (stripWs priv)) [] []
        hwf' (by simp) hbad
    refine ⟨bad, ?_, hne, hinv⟩
    unfold privileges_unpack_user
    rw [hb]
  · obtain ⟨m, hm⟩ :=
      unpackLoop_role_ok (quoteOf mode) (splitOnChar '/' (stripWs priv)) [] [] hwf'
    unfold privileges_unpack
    rw [hm]
    exact ⟨_, rfl⟩

/-- C8 witness: the asymmetry applied at a concrete well-formed spec with the
invalid token `FOO`. -/
theorem C8_validation_asymmetry_witness :
    (∃ bad, privileges_unpack_user (("db.*:FOO").data) (("NOTANSI").data) =
      .error (.invalidPrivs bad) ∧ bad ≠ [] ∧
      ∀ t ∈ bad, VALID_PRIVS.contains t = false) ∧
    (∃ m, privileges_unpack (("db.*:FOO").data) (("NOTANSI").data) true = .ok m) :=
  C8_validation_asymmetry (("db.*:FOO").data) (("NOTANSI").data) (by decide)
    ⟨("db.*:FOO").data, by decide,
      ("`db`.*").data, [("FOO").data], [("FOO").data], false, by decide,
      ("FOO").data, by decide, by decide⟩

/-- C8 counterexample: on `db.*:FOO/BAR` — a spec containing the invalid
token `FOO` — the user path raises the invalid-privileges error, but the role
path does not accept the string either: its second segment has no `:`, so it
raises `IndexError`, refuting "accepts the same string without raising any
error" as universally claimed. -/
theorem C8_validation_asymmetry_counterexample :
    privileges_unpack_user (("db.*:FOO/BAR").data) (("NOTANSI").data) =
      .error (.invalidPrivs [("FOO").data]) ∧
    privileges_unpack (("db.*:FOO/BAR").data) (("NOTANSI").data) true =
      .error .indexError := by
  constructor
  · decide
  · decide

/-! ## PrivilegeReconciler: the privilege-handling section of `user_mod`
(`plugins/module_utils/user.py`, lines 317–391)

Privilege maps are insertion-ordered association lists, as the Python dicts
returned by `privileges_get` / `privileges_unpack`.  Python's `list(set(..))`
constructions are canonicalized to first-occurrence order.  The cursor is
modelled by the list of grant/revoke operations issued; the server state
re-read by `privileges_get` after the loops is modelled by applying those
operations set-wise to the current map, and issuing a statement whose
privilege list is empty once `GRANT` is filtered out (`REVOKE  ON ...`)
fails, as the server rejects it. -/

/-- Insertion-ordered privilege maps. -/
abbrev PrivMap := List (Str × List Str)

/-- A grant or revoke operation issued by the reconciliation. -/
inductive PrivOp
  | revoke (scope : Str) (privs : List Str) (grantOpt : Bool)
  | grant (scope : Str) (privs : List Str)
deriving DecidableEq, Repr

/-- The scope an operation acts on. -/
def PrivOp.scope : PrivOp → Str
  | .revoke s _ _ => s
  | .grant s _ => s

/-- Whether an operation is a grant. -/
def PrivOp.isGrant : PrivOp → Bool
  | .revoke _ _ _ => false
  | .grant _ _ => true

/-- Outcome of a code section: an early check-mode return, an aborting SQL
error, or a normal result. -/
inductive Res (α : Type)
  | early
  | failed
  | done (val : α)
deriving DecidableEq, Repr

/-- First-occurrence deduplication (canonical enumeration of a Python set
built from a list). -/
def dedup : List Str → List Str
  | [] => []
  | x :: xs => x :: (dedup xs).filter (fun y => ! (y == x))

/-- `list(set(a) - set(b))`, canonicalized to `a`'s first-occurrence order. -/
def pyDiff (a b : List Str) : List Str :=
  (dedup a).filter (fun x => ! b.contains x)

/-- `list(set(a) & set(b))`, canonicalized to `a`'s first-occurrence order. -/
def pyInter (a b : List Str) : List Str :=
  (dedup a).filter (fun x => b.contains x)

/-- The privilege list as rendered into SQL (`GRANT` is filtered out) is
empty, which makes the statement fail on the server. -/
def privStringEmpty (privs : List Str) : Bool :=
  (privs.filter (fun p => ! (p == ("GRANT").data))).isEmpty

/-- The first loop of the privilege section: every scope of the current map
absent from the new specification is blanket-revoked, except for `root` and
scopes holding `PROXY`; the `grant_option` flag is threaded through all
iterations.  Returns the final flag, the issued operations and the `changed`
flag. -/
def revokeAbsent (user : Str) (check : Bool) (new_priv : PrivMap) :
    PrivMap → Bool → Res (Bool × List PrivOp × Bool)
  | [], g => .done (g, [], false)
  | (db_table, priv) :: rest, g =>
    let g := if priv.contains (("GRANT").data) then true else g
    if (new_priv.lookup db_table).isNone then
      if user ≠ ("root").data ∧ ¬ priv.contains (("PROXY").data) then
        if check then .early
        else if privStringEmpty priv then .failed
        else
          match revokeAbsent user check new_priv rest g with
          | .early => .early
          | .failed => .failed
          | .done (g', ops, _) => .done (g', .revoke db_table priv g :: ops, true)
      else revokeAbsent user check new_priv rest g
    else revokeAbsent user check new_priv rest g

/-- The second loop: scopes of the new specification with no current
privileges are granted wholesale. -/
def grantNew (check : Bool) (curr_priv : PrivMap) :
    PrivMap → Res (List PrivOp × Bool)
  | [] => .done ([], false)
  | (db_table, priv) :: rest =>
    if (curr_priv.lookup db_table).isNone then
      if check then .early
      else if privStringEmpty priv then .failed
      else
        match grantNew check curr_priv rest with
        | .early => .early
        | .failed => .failed
        | .done (ops, _) => .done (.grant db_table priv :: ops, true)
    else grantNew check curr_priv rest

/-- Per-scope delta of the third loop: grant and revoke lists and the new
`grant_option` flag under the three policies. -/
def reconcileScope (append subtract : Bool) (newp currp : List Str)
    (g0 : Bool) : List Str × List Str × Bool :=
  if append then (pyDiff newp currp, [], g0)
  else if subtract then ([], pyInter newp currp, g0)
  else
    let gp := pyDiff newp currp
    let rv0 := pyDiff currp newp
    let rv := if gp.contains (("ALL").data) || gp.contains (("ALL PRIVILEGES").data)
      then ([("GRANT").data, ("PROXY").data] : List Str).filter
        (fun x => rv0.contains x)
      else rv0
    (gp, rv, rv.contains (("GRANT").data) && ! gp.contains (("GRANT").data))

/-- The revoke-then-grant operation list issued for one scope. -/
def scopeOps (db_table : Str) (gp rv : List Str) (g2 : Bool) : List PrivOp :=
  (if rv.length > 0 then [PrivOp.revoke db_table rv g2] else []) ++
  (if gp.length > 0 then [PrivOp.grant db_table gp] else [])

/-- The third loop, over the scopes present in both maps: revoke then grant
the per-scope delta, appending `USAGE` when the grant list is exactly
`[GRANT]`. -/
def intersectLoop (check append subtract : Bool) (curr_priv new_priv : PrivMap) :
    List Str → Bool → Res (List PrivOp × Bool)
  | [], g => .done ([], g)
  | db_table :: rest, g =>
    let delta := reconcileScope append subtract ((new_priv.lookup db_table).getD [])
      ((curr_priv.lookup db_table).getD []) g
    let gp := if delta.1 = [("GRANT").data] then delta.1 ++ [("USAGE").data] else delta.1
    let rv := delta.2.1
    if gp.length + rv.length > 0 then
      if check then .early
      else if rv.length > 0 && privStringEmpty rv then .failed
      else
        match intersectLoop check append subtract curr_priv new_priv rest delta.2.2 with
        | .early => .early
        | .failed => .failed
        | .done (ops, gf) =>
          .done (scopeOps db_table gp rv delta.2.2 ++ ops, gf)
    else intersectLoop check append subtract curr_priv new_priv rest delta.2.2

/-- Server-model effect of one operation on a privilege map: a grant adds
the missing tokens to the scope (creating it if needed); a revoke removes
the listed tokens other than `GRANT`, and `GRANT` itself when the
grant-option flag is set. -/
def applyOp (m : PrivMap) : PrivOp → PrivMap
  | .grant s privs =>
    match m.lookup s with
    | some v => assocSet m s (v ++ privs.filter (fun p => ! v.contains p))
    | none => m ++ [(s, privs)]
  | .revoke s privs g =>
    match m.lookup s with
    | some v => assocSet m s (v.filter (fun p =>
        ! ((privs.contains p && ! (p == ("GRANT").data)) ||
          (g && p == ("GRANT").data))))
    | none => m

/-- Server-model effect of an operation sequence. -/
def applyOps (m : PrivMap) (ops : List PrivOp) : PrivMap := ops.foldl applyOp m

/-- The whole privilege-handling section of `user_mod`: the three loops in
order, then the re-read comparison `changed = changed or (curr != after)`
with the re-read state given by the server model. -/
def handle_privileges (user : Str) (check append subtract : Bool)
    (curr_priv new_priv : PrivMap) : Res (List PrivOp × Bool) :=
  match (if ¬ append ∧ ¬ subtract
      then revokeAbsent user check new_priv curr_priv false
      else .done (false, [], false)) with
  | .early => .early
  | .failed => .failed
  | .done (g1, ops1, ch1) =>
    match (if ¬ subtract then grantNew check curr_priv new_priv
        else .done ([], false)) with
    | .early => .early
    | .failed => .failed
    | .done (ops2, ch2) =>
      let intersectKeys := (dedup (new_priv.map Prod.fst)).filter
        (fun k => (curr_priv.lookup k).isSome)
      match intersectLoop check append subtract curr_priv new_priv
          intersectKeys g1 with
      | .early => .early
      | .failed => .failed
      | .done (ops3, _) =>
        let ops := ops1 ++ ops2 ++ ops3
        let after := applyOps curr_priv ops
        .done (ops, (ch1 || ch2) || decide (curr_priv ≠ after))

/-- Membership is invariant under first-occurrence deduplication. -/
theorem mem_dedup {t : Str} {l : List Str} : t ∈ dedup l ↔ t ∈ l := by
  induction l with
  | nil => simp [dedup]
  | cons x xs ih =>
    rw [dedup]
    simp only [List.mem_cons]
    constructor
    · rintro (he | hm)
      · exact Or.inl he
      · exact Or.inr (ih.mp (List.mem_of_mem_filter hm))
    · rintro (he | hm)
      · exact Or.inl he
      · by_cases hx : t = x
        · exact Or.inl hx
        · refine Or.inr (List.mem_filter.mpr ⟨ih.mpr hm, by simp [hx]⟩)

/-- Deduplicating a list against itself removes everything. -/
theorem pyDiff_self (v : List Str) : pyDiff v v = [] := by
  unfold pyDiff
  rw [List.filter_eq_nil_iff]
  intro t ht
  simp only [Bool.not_eq_true', Bool.not_eq_false]
  exact List.elem_iff.mpr (mem_dedup.mp ht)

/-- A pair of an association list is found by lookup of its key. -/
theorem lookup_isSome_of_mem {k : Str} {v : List Str} {m : PrivMap}
    (h : (k, v) ∈ m) : (m.lookup k).isSome = true := by
  induction m with
  | nil => simp at h
  | cons e rest ih =>
    rw [List.lookup]
    cases hke : (k == e.1) with
    | true => simp
    | false =>
      simp only []
      rcases List.mem_cons.mp h with he | hm
      · exfalso
        have hkk : k = e.1 := by rw [← he]
        rw [hkk] at hke
        simp at hke
      · exact ih hm

/-- The wholesale-grant loop issues only grants. -/
theorem grantNew_grants (check : Bool) (curr : PrivMap) :
    ∀ (l : PrivMap) (ops : List PrivOp) (ch : Bool),
    grantNew check curr l = .done (ops, ch) → ∀ op ∈ ops, op.isGrant = true := by
  intro l
  induction l with
  | nil =>
    intro ops ch h
    rw [grantNew] at h
    simp only [Res.done.injEq, Prod.mk.injEq] at h
    rw [← h.1]
    simp
  | cons e rest ih =>
    intro ops ch h
    rw [grantNew] at h
    by_cases hl : ((curr.lookup e.1).isNone : Bool)
    · rw [if_pos hl] at h
      by_cases hc : check
      · rw [if_pos hc] at h
        exact absurd h (by simp)
      · rw [if_neg hc] at h
        by_cases hp : (privStringEmpty e.2 : Bool)
        · rw [if_pos hp] at h
          exact absurd h (by simp)
        · rw [if_neg hp] at h
          cases hr : grantNew check curr rest with
          | early => rw [hr] at h; exact absurd h (by simp)
          | failed => rw [hr] at h; exact absurd h (by simp)
          | done v =>
            obtain ⟨ops', ch'⟩ := v
            rw [hr] at h
            simp only [Res.done.injEq, Prod.mk.injEq] at h
            rw [← h.1]
            intro op hop
            rcases List.mem_cons.mp hop with he | hm
            · subst he
              rfl
            · exact ih ops' ch' hr op hm
    · rw [if_neg hl] at h
      exact ih ops ch h

/-- Member operations of a per-scope op list. -/
theorem mem_scopeOps {op : PrivOp} {db : Str} {gp rv : List Str} {g : Bool}
    (h : op ∈ scopeOps db gp rv g) :
    (op = PrivOp.revoke db rv g ∧ rv ≠ []) ∨ (op = PrivOp.grant db gp ∧ gp ≠ []) := by
  unfold scopeOps at h
  by_cases h1 : rv.length > 0 <;> by_cases h2 : gp.length > 0 <;>
    simp [h1, h2] at h <;>
    first
    | (rcases h with h | h
       · exact Or.inl ⟨h, by intro he; rw [he] at h1; simp at h1⟩
       · exact Or.inr ⟨h, by intro he; rw [he] at h2; simp at h2⟩)
    | exact Or.inl ⟨h, by intro he; rw [he] at h1; simp at h1⟩
    | exact Or.inr ⟨h, by intro he; rw [he] at h2; simp at h2⟩

/-- Under the append policy the intersect loop issues only grants. -/
theorem intersectLoop_append_grants (check : Bool) (curr new : PrivMap) :
    ∀ (ks : List Str) (g : Bool) (ops : List PrivOp) (gf : Bool),
    intersectLoop check true false curr new ks g = .done (ops, gf) →
    ∀ op ∈ ops, op.isGrant = true := by
  intro ks
  induction ks with
  | nil =>
    intro g ops gf h
    rw [intersectLoop] at h
    simp only [Res.done.injEq, Prod.mk.injEq] at h
    rw [← h.1]
    simp
  | cons k rest ih =>
    intro g ops gf h
    rw [intersectLoop] at h
    simp only [reconcileScope, if_true] at h
    generalize hgp : (if pyDiff ((new.lookup k).getD []) ((curr.lookup k).getD []) =
        [("GRANT").data]
      then pyDiff ((new.lookup k).getD []) ((curr.lookup k).getD []) ++ [("USAGE").data]
      else pyDiff ((new.lookup k).getD []) ((curr.lookup k).getD [])) = gp at h
    simp only [List.length_nil, Nat.add_zero] at h
    by_cases hlen : gp.length > 0
    · rw [if_pos hlen] at h
      by_cases hc : check
      · rw [if_pos hc] at h
        exact absurd h (by simp)
      · rw [if_neg hc] at h
        rw [if_neg (by simp)] at h
        cases hr : intersectLoop check true false curr new rest g with
        | early => rw [hr] at h; exact absurd h (by simp)
        | failed => rw [hr] at h; exact absurd h (by simp)
        | done v =>
          obtain ⟨ops2, gf2⟩ := v
          rw [hr] at h
          simp only [Res.done.injEq, Prod.mk.injEq] at h
          rw [← h.1]
          intro op hop
          rcases List.mem_append.mp hop with h1 | h2
          · rcases mem_scopeOps h1 with ⟨he, hne⟩ | ⟨he, _⟩
            · exact absurd rfl hne
            · rw [he]
              rfl
          · exact ih g ops2 gf2 hr op h2
    · rw [if_neg hlen] at h
      exact ih g ops gf h

/-- Under the subtract policy the intersect loop issues only revokes. -/
theorem intersectLoop_subtract_revokes (check : Bool) (curr new : PrivMap) :
    ∀ (ks : List Str) (g : Bool) (ops : List PrivOp) (gf : Bool),
    intersectLoop check false true curr new ks g = .done (ops, gf) →
    ∀ op ∈ ops, op.isGrant = false := by
  intro ks
  induction ks with
  | nil =>
    intro g ops gf h
    rw [intersectLoop] at h
    simp only [Res.done.injEq, Prod.mk.injEq] at h
    rw [← h.1]
    simp
  | cons k rest ih =>
    intro g ops gf h
    rw [intersectLoop] at h
    simp only [reconcileScope, Bool.false_eq_true, if_false, if_true] at h
    rw [if_neg (by decide : ¬ (([] : List Str) = [("GRANT").data]))] at h
    generalize hrv : pyInter ((new.lookup k).getD []) ((curr.lookup k).getD []) = rv at h
    simp only [List.length_nil, Nat.zero_add] at h
    by_cases hlen : rv.length > 0
    · rw [if_pos hlen] at h
      by_cases hc : check
      · rw [if_pos hc] at h
        exact absurd h (by simp)
      · rw [if_neg hc] at h
        by_cases hf : (decide (rv.length > 0) && privStringEmpty rv) = true
        · rw [if_pos hf] at h
          exact absurd h (by simp)
        · rw [if_neg hf] at h
          cases hr : intersectLoop check false true curr new rest g with
          | early => rw [hr] at h; exact absurd h (by simp)
          | failed => rw [hr] at h; exact absurd h (by simp)
          | done v =>
            obtain ⟨ops2, gf2⟩ := v
            rw [hr] at h
            simp only [Res.done.injEq, Prod.mk.injEq] at h
            rw [← h.1]
            intro op hop
            rcases List.mem_append.mp hop with h1 | h2
            · rcases mem_scopeOps h1 with ⟨he, _⟩ | ⟨he, hne⟩
              · rw [he]
                rfl
              · exact absurd rfl hne
            · exact ih g ops2 gf2 hr op h2
    · rw [if_neg hlen] at h
      exact ih g ops gf h

/-- The blanket-revoke loop does nothing when every current scope is found
in the new specification. -/
theorem revokeAbsent_all_present (user : Str) (check : Bool) (new : PrivMap) :
    ∀ (l : PrivMap) (g : Bool), (∀ e ∈ l, (new.lookup e.1).isSome = true) →
    ∃ g', revokeAbsent user check new l g = .done (g', [], false) := by
  intro l
  induction l with
  | nil => exact fun g _ => ⟨g, rfl⟩
  | cons e rest ih =>
    intro g hall
    rw [revokeAbsent]
    rw [if_neg (by
      have := hall e (by simp)
      cases hl : new.lookup e.1 with
      | none => rw [hl] at this; simp at this
      | some v => simp [hl])]
    exact ih _ (fun x hx => hall x (by simp [hx]))

/-- The wholesale-grant loop does nothing when every new scope already has
current privileges. -/
theorem grantNew_all_present (check : Bool) (curr : PrivMap) :
    ∀ (l : PrivMap), (∀ e ∈ l, (curr.lookup e.1).isSome = true) →
    grantNew check curr l = .done ([], false) := by
  intro l
  induction l with
  | nil => exact fun _ => rfl
  | cons e rest ih =>
    intro hall
    rw [grantNew]
    rw [if_neg (by
      have := hall e (by simp)
      cases hl : curr.lookup e.1 with
      | none => rw [hl] at this; simp at this
      | some v => simp [hl])]
    exact ih (fun x hx => hall x (by simp [hx]))

/-- The intersect loop does nothing when the two maps coincide. -/
theorem intersectLoop_self (check : Bool) (curr : PrivMap) :
    ∀ (ks : List Str) (g : Bool),
    ∃ gf, intersectLoop check false false curr curr ks g = .done ([], gf) := by
  intro ks
  induction ks with
  | nil => exact fun g => ⟨g, rfl⟩
  | cons k rest ih =>
    intro g
    rw [intersectLoop]
    simp only [reconcileScope, Bool.false_eq_true, if_false]
    rw [pyDiff_self]
    simp
    rcases ih false with ⟨gf, hgf⟩
    cases gf
    · exact Or.inl hgf
    · exact Or.inr hgf

/-- A member pair of an association list is found by lookup of its key. -/
theorem mem_lookup_isSome {e : Str × List Str} {m : PrivMap} (h : e ∈ m) :
    (m.lookup e.1).isSome = true := by
  obtain ⟨k, v⟩ := e
  exact lookup_isSome_of_mem h

/-- C2: under the append policy the privilege reconciliation issues no
revoke operations; under the subtract policy it issues no grant operations;
and under the replace policy with current equal to desired it issues no
operations at all and reports `changed = false`. -/
theorem C2_policy_plans :
    (∀ (user : Str) (check : Bool) (curr new : PrivMap) (ops : List PrivOp)
      (ch : Bool), handle_privileges user check true false curr new =
        .done (ops, ch) → ∀ op ∈ ops, op.isGrant = true) ∧
    (∀ (user : Str) (check : Bool) (curr new : PrivMap) (ops : List PrivOp)
      (ch : Bool), handle_privileges user check false true curr new =
        .done (ops, ch) → ∀ op ∈ ops, op.isGrant = false) ∧
    (∀ (user : Str) (check : Bool) (curr : PrivMap),
      handle_privileges user check false false curr curr = .done ([], false)) := by
  refine ⟨?_, ?_, ?_⟩
  · intro user check curr new ops ch h
    unfold handle_privileges at h
    rw [if_neg (by simp)] at h
    rw [if_pos (by simp)] at h
    simp only [] at h
    cases h2 : grantNew check curr new with
    | early => rw [h2] at h; exact absurd h (by simp)
    | failed => rw [h2] at h; exact absurd h (by simp)
    | done v2 =>
      obtain ⟨ops2, ch2⟩ := v2
      rw [h2] at h
      cases h3 : intersectLoop check true false curr new
          ((dedup (new.map Prod.fst)).filter
            (fun k => (curr.lookup k).isSome)) false with
      | early => rw [h3] at h; exact absurd h (by simp)
      | failed => rw [h3] at h; exact absurd h (by simp)
      | done v3 =>
        obtain ⟨ops3, gf3⟩ := v3
        rw [h3] at h
        simp only [Res.done.injEq, Prod.mk.injEq, List.nil_append] at h
        rw [← h.1]
        intro op hop
        rcases List.mem_append.mp hop with h1 | h1
        · exact grantNew_grants check curr new ops2 ch2 h2 op h1
        · exact intersectLoop_append_grants check curr new _ _ _ _ h3 op h1
  · intro user check curr new ops ch h
    unfold handle_privileges at h
    rw [if_neg (by simp)] at h
    rw [if_neg (by simp)] at h
    simp only [] at h
    cases h3 : intersectLoop check false true curr new
        ((dedup (new.map Prod.fst)).filter
          (fun k => (curr.lookup k).isSome)) false with
    | early => rw [h3] at h; exact absurd h (by simp)
    | failed => rw [h3] at h; exact absurd h (by simp)
    | done v3 =>
      obtain ⟨ops3, gf3⟩ := v3
      rw [h3] at h
      simp only [Res.done.injEq, Prod.mk.injEq, List.nil_append] at h
      rw [← h.1]
      intro op hop
      exact intersectLoop_subtract_revokes check curr new _ _ _ _ h3 op hop
  · intro user check curr
    unfold handle_privileges
    rw [if_pos (by simp)]
    obtain ⟨g1, h1⟩ := revokeAbsent_all_present user check curr curr false
      (fun e he => mem_lookup_isSome he)
    rw [h1]
    dsimp only
    rw [if_pos (by simp)]
    rw [grantNew_all_present check curr curr (fun e he => mem_lookup_isSome he)]
    dsimp only
    obtain ⟨gf, h3⟩ := intersectLoop_self check curr
      ((dedup (curr.map Prod.fst)).filter (fun k => (curr.lookup k).isSome)) g1
    rw [h3]
    simp [applyOps]

/-- C2 witness: the append-policy branch applied at a concrete pair of
privilege maps. -/
theorem C2_policy_plans_witness :
    handle_privileges (("bob").data) false true false
        [((("*.*").data), [("SELECT").data])]
        [((("*.*").data), [("INSERT").data])] =
      .done ([PrivOp.grant (("*.*").data) [("INSERT").data]], true) ∧
    ∀ op ∈ [PrivOp.grant (("*.*").data) [("INSERT").data]], op.isGrant = true :=
  ⟨by decide, C2_policy_plans.1 (("bob").data) false
    [((("*.*").data), [("SELECT").data])]
    [((("*.*").data), [("INSERT").data])]
    [PrivOp.grant (("*.*").data) [("INSERT").data]] true (by decide)⟩

/-- With duplicate-free keys, pairs sharing a key coincide. -/
theorem nodup_keys_eq {l : PrivMap} (h : (l.map Prod.fst).Nodup)
    {e e' : Str × List Str} (he : e ∈ l) (he' : e' ∈ l) (hk : e.1 = e'.1) :
    e = e' := by
  induction l with
  | nil => simp at he
  | cons a rest ih =>
    rw [List.map_cons, List.nodup_cons] at h
    rcases List.mem_cons.mp he with h1 | h1 <;>
      rcases List.mem_cons.mp he' with h2 | h2
    · rw [h1, h2]
    · exfalso
      subst h1
      exact h.1 (List.mem_map.mpr ⟨e', h2, hk.symm⟩)
    · exfalso
      subst h2
      exact h.1 (List.mem_map.mpr ⟨e, h1, hk⟩)
    · exact ih h.2 h1 h2

/-- The blanket-revoke loop issues nothing on a scope whose every entry is
protected (root user or `PROXY` privilege). -/
theorem revokeAbsent_protected (user : Str) (check : Bool) (new : PrivMap)
    (s : Str) :
    ∀ (l : PrivMap) (g : Bool) (g' : Bool) (ops : List PrivOp) (ch : Bool),
    (∀ e ∈ l, e.1 = s → ¬ (user ≠ ("root").data ∧
      ¬ e.2.contains (("PROXY").data))) →
    revokeAbsent user check new l g = .done (g', ops, ch) →
    ∀ op ∈ ops, op.scope ≠ s := by
  intro l
  induction l with
  | nil =>
    intro g g' ops ch _ h
    rw [revokeAbsent] at h
    simp only [Res.done.injEq, Prod.mk.injEq] at h
    rw [← h.2.1]
    simp
  | cons e rest ih =>
    intro g g' ops ch hprot h
    rw [revokeAbsent] at h
    by_cases hl : ((new.lookup e.1).isNone : Bool)
    · rw [if_pos hl] at h
      by_cases hg : user ≠ ("root").data ∧ ¬ e.2.contains (("PROXY").data)
      · rw [if_pos hg] at h
        by_cases hc : check
        · rw [if_pos hc] at h
          exact absurd h (by simp)
        · rw [if_neg hc] at h
          by_cases hp : (privStringEmpty e.2 : Bool)
          · rw [if_pos hp] at h
            exact absurd h (by simp)
          · rw [if_neg hp] at h
            cases hr : revokeAbsent user check new rest
                (if e.2.contains (("GRANT").data) then true else g) with
            | early => rw [hr] at h; exact absurd h (by simp)
            | failed => rw [hr] at h; exact absurd h (by simp)
            | done v =>
              obtain ⟨g2, ops2, ch2⟩ := v
              rw [hr] at h
              simp only [Res.done.injEq, Prod.mk.injEq] at h
              rw [← h.2.1]
              intro op hop
              rcases List.mem_cons.mp hop with h1 | h1
              · rw [h1]
                intro he
                exact (hprot e (by simp) he) hg
              · exact ih _ _ _ _ (fun x hx hxs => hprot x (by simp [hx]) hxs) hr op h1
      · rw [if_neg hg] at h
        exact ih _ _ _ _ (fun x hx hxs => hprot x (by simp [hx]) hxs) h
    · rw [if_neg hl] at h
      exact ih _ _ _ _ (fun x hx hxs => hprot x (by simp [hx]) hxs) h

/-- Intersect-loop operations act only on scopes from the key list. -/
theorem intersectLoop_scopes (check append subtract : Bool)
    (curr new : PrivMap) :
    ∀ (ks : List Str) (g : Bool) (ops : List PrivOp) (gf : Bool),
    intersectLoop check append subtract curr new ks g = .done (ops, gf) →
    ∀ op ∈ ops, op.scope ∈ ks := by
  intro ks
  induction ks with
  | nil =>
    intro g ops gf h
    rw [intersectLoop] at h
    simp only [Res.done.injEq, Prod.mk.injEq] at h
    rw [← h.1]
    simp
  | cons k rest ih =>
    intro g ops gf h
    rw [intersectLoop] at h
    generalize hgp : (if (reconcileScope append subtract ((new.lookup k).getD [])
        ((curr.lookup k).getD []) g).1 = [("GRANT").data]
      then (reconcileScope append subtract ((new.lookup k).getD [])
        ((curr.lookup k).getD []) g).1 ++ [("USAGE").data]
      else (reconcileScope append subtract ((new.lookup k).getD [])
        ((curr.lookup k).getD []) g).1) = gp at h
    generalize hrv : (reconcileScope append subtract ((new.lookup k).getD [])
      ((curr.lookup k).getD []) g).2.1 = rv at h
    by_cases hlen : gp.length + rv.length > 0
    · rw [if_pos hlen] at h
      by_cases hc : check
      · rw [if_pos hc] at h
        exact absurd h (by simp)
      · rw [if_neg hc] at h
        by_cases hf : (decide (rv.length > 0) && privStringEmpty rv) = true
        · rw [if_pos hf] at h
          exact absurd h (by simp)
        · rw [if_neg hf] at h
          cases hr : intersectLoop check append subtract curr new rest
              (reconcileScope append subtract ((new.lookup k).getD [])
                ((curr.lookup k).getD []) g).2.2 with
          | early => rw [hr] at h; exact absurd h (by simp)
          | failed => rw [hr] at h; exact absurd h (by simp)
          | done v =>
            obtain ⟨ops2, gf2⟩ := v
            rw [hr] at h
            simp only [Res.done.injEq, Prod.mk.injEq] at h
            rw [← h.1]
            intro op hop
            rcases List.mem_append.mp hop with h1 | h1
            · rcases mem_scopeOps h1 with ⟨he, _⟩ | ⟨he, _⟩ <;>
                (rw [he]; simp [PrivOp.scope])
            · simp [ih _ _ _ hr op h1]
    · rw [if_neg hlen] at h
      intro op hop
      simp [ih _ _ _ h op hop]

/-- C3: under the replace policy, a scope present in the current map and
absent from the desired map is never blanket-revoked when the user is `root`
or the scope's current privileges contain `PROXY`; in particular no revoke
operation ever targets such a scope. -/
theorem C3_root_proxy_protection (user : Str) (check : Bool)
    (curr new : PrivMap) (s : Str) (priv : List Str) (ops : List PrivOp)
    (ch : Bool) (hnd : (curr.map Prod.fst).Nodup) (hmem : (s, priv) ∈ curr)
    (habs : new.lookup s = none)
    (hprot : user = ("root").data ∨ priv.contains (("PROXY").data) = true)
    (h : handle_privileges user check false false curr new = .done (ops, ch)) :
    ∀ (p : List Str) (g : Bool), PrivOp.revoke s p g ∉ ops := by
  unfold handle_privileges at h
  rw [if_pos (by simp)] at h
  cases h1 : revokeAbsent user check new curr false with
  | early => rw [h1] at h; exact absurd h (by simp)
  | failed => rw [h1] at h; exact absurd h (by simp)
  | done v1 =>
    obtain ⟨g1, ops1, ch1⟩ := v1
    rw [h1] at h
    simp only [] at h
    rw [if_pos (by simp)] at h
    cases h2 : grantNew check curr new with
    | early => rw [h2] at h; exact absurd h (by simp)
    | failed => rw [h2] at h; exact absurd h (by simp)
    | done v2 =>
      obtain ⟨ops2, ch2⟩ := v2
      rw [h2] at h
      simp only [] at h
      cases h3 : intersectLoop check false false curr new
          ((dedup (new.map Prod.fst)).filter
            (fun k => (curr.lookup k).isSome)) g1 with
      | early => rw [h3] at h; exact absurd h (by simp)
      | failed => rw [h3] at h; exact absurd h (by simp)
      | done v3 =>
        obtain ⟨ops3, gf3⟩ := v3
        rw [h3] at h
        simp only [Res.done.injEq, Prod.mk.injEq] at h
        rw [← h.1]
        intro p g hop
        rcases List.mem_append.mp hop with hop | hop
        · rcases List.mem_append.mp hop with hop | hop
          · refine revokeAbsent_protected user check new s curr false g1 ops1 ch1
                ?_ h1 (PrivOp.revoke s p g) hop rfl
            intro e he hes hcond
            have he2 : e = (s, priv) := nodup_keys_eq hnd he hmem hes
            rcases hprot with hr | hr
            · exact hcond.1 hr
            · refine hcond.2 ?_
              rw [he2]
              exact hr
          · have := grantNew_grants check curr new ops2 ch2 h2 _ hop
            simp [PrivOp.isGrant] at this
        · have hsc := intersectLoop_scopes check false false curr new _ g1 ops3
            gf3 h3 _ hop
          simp only [PrivOp.scope] at hsc
          have hs2 := List.mem_filter.mp hsc
          have hs3 := mem_dedup.mp hs2.1
          rcases List.mem_map.mp hs3 with ⟨e, hemem, hefst⟩
          have : (new.lookup s).isSome = true := by
            refine @lookup_isSome_of_mem s e.2 new ?_
            rw [← hefst]
            exact hemem
          rw [habs] at this
          simp at this

/-- C3 witness: the protection applied to the root account whose desired map
omits `*.*` entirely — nothing is revoked. -/
theorem C3_root_proxy_protection_witness :
    handle_privileges (("root").data) false false false
        [((("*.*").data), [("ALL").data])] [] = .done ([], false) ∧
    ∀ (p : List Str) (g : Bool),
      PrivOp.revoke (("*.*").data) p g ∉ ([] : List PrivOp) :=
  ⟨by decide, C3_root_proxy_protection (("root").data) false
    [((("*.*").data), [("ALL").data])] [] (("*.*").data) [("ALL").data] [] false
    (by decide) (by decide) (by decide) (Or.inl rfl) (by decide)⟩

/-- Lookup after in-place association update: the updated key. -/
theorem assocSet_lookup_self {m : PrivMap} {k : Str} {v : List Str} :
    (assocSet m k v).lookup k = some v := by
  induction m with
  | nil => simp [assocSet, List.lookup]
  | cons e rest ih =>
    rw [assocSet]
    by_cases hk : e.1 = k
    · rw [if_pos hk]
      simp [List.lookup]
    · rw [if_neg hk]
      rw [List.lookup]
      have : (k == e.1) = false := by
        simp only [beq_eq_false_iff_ne, ne_eq]
        exact fun he => hk he.symm
      rw [this]
      exact ih

/-- Lookup after in-place association update: other keys. -/
theorem assocSet_lookup_other {m : PrivMap} {k k' : Str} {v : List Str}
    (h : k' ≠ k) : (assocSet m k v).lookup k' = m.lookup k' := by
  induction m with
  | nil =>
    have hb : (k' == k) = false := by simp [h]
    simp [assocSet, List.lookup, hb]
  | cons e rest ih =>
    rw [assocSet]
    by_cases hk : e.1 = k
    · rw [if_pos hk]
      rw [List.lookup, List.lookup]
      have h1 : (k' == k) = false := by simp [h]
      have h2 : (k' == e.1) = false := by
        rw [hk]
        simp [h]
      rw [h1, h2]
    · rw [if_neg hk]
      rw [List.lookup, List.lookup]
      cases hke : (k' == e.1) with
      | true => rfl
      | false => exact ih

/-- Lookup in an appended association list when the key resolves on the left. -/
theorem lookup_append_of_some {m l : PrivMap} {k : Str} {v : List Str}
    (h : m.lookup k = some v) : (m ++ l).lookup k = some v := by
  induction m with
  | nil => simp [List.lookup] at h
  | cons e rest ih =>
    rw [List.cons_append, List.lookup]
    rw [List.lookup] at h
    cases hke : (k == e.1) with
    | true => rw [hke] at h; exact h
    | false => rw [hke] at h; exact ih h

/-- Applying an operation on a different scope does not affect a lookup. -/
theorem applyOp_lookup_other {m : PrivMap} {op : PrivOp} {k : Str}
    (h : op.scope ≠ k) : (applyOp m op).lookup k = m.lookup k := by
  cases op with
  | grant s privs =>
    simp only [PrivOp.scope] at h
    rw [applyOp]
    cases hl : m.lookup s with
    | some v => exact assocSet_lookup_other (fun he => h he.symm)
    | none =>
      cases hk : m.lookup k with
      | some w => exact lookup_append_of_some hk
      | none =>
        rw [lookup_append_of_none _ _ _ hk]
        rw [List.lookup]
        have : (k == s) = false := by
          simp only [beq_eq_false_iff_ne, ne_eq]
          exact fun he => h he.symm
        rw [this]
        rfl
  | revoke s privs g =>
    simp only [PrivOp.scope] at h
    rw [applyOp]
    cases hl : m.lookup s with
    | some v => exact assocSet_lookup_other (fun he => h he.symm)
    | none => rfl

/-- Applying operations none of which touch a scope preserves its lookup. -/
theorem applyOps_lookup_notin {k : Str} :
    ∀ (ops : List PrivOp) (m : PrivMap), (∀ op ∈ ops, op.scope ≠ k) →
    (applyOps m ops).lookup k = m.lookup k := by
  intro ops
  induction ops with
  | nil => exact fun m _ => rfl
  | cons op rest ih =>
    intro m hall
    rw [applyOps, List.foldl_cons]
    rw [show List.foldl applyOp (applyOp m op) rest = applyOps (applyOp m op) rest from rfl]
    rw [ih (applyOp m op) (fun x hx => hall x (by simp [hx]))]
    exact applyOp_lookup_other (hall op (by simp))

/-- First-occurrence deduplication yields duplicate-free lists. -/
theorem dedup_nodup : ∀ (l : List Str), (dedup l).Nodup := by
  intro l
  induction l with
  | nil => simp [dedup]
  | cons x xs ih =>
    rw [dedup]
    rw [List.nodup_cons]
    constructor
    · intro hm
      have := List.mem_filter.mp hm
      simp at this
    · exact List.Nodup.filter _ ih

/-- A `contains = false` fact transported to non-membership. -/
theorem notin_of_contains_false {l : List Str} {x : Str}
    (h : l.contains x = false) : x ∉ l := by
  intro hm
  have h2 : l.elem x = true := List.elem_iff.mpr hm
  rw [show l.contains x = l.elem x from rfl, h2] at h
  cases h

/-- Every token in the revoke half of a per-scope delta comes from the
current privilege set. -/
theorem reconcileScope_rv_sub {a s : Bool} {np cp : List Str} {g : Bool}
    {x : Str} (h : x ∈ (reconcileScope a s np cp g).2.1) : x ∈ cp := by
  rw [reconcileScope] at h
  by_cases ha : a
  · rw [if_pos ha] at h
    simp at h
  · rw [if_neg ha] at h
    by_cases hs : s
    · rw [if_pos hs] at h
      simp only [pyInter] at h
      have := List.mem_filter.mp h
      have h2 := this.2
      simp only [Bool.not_eq_eq_eq_not] at h2
      exact List.elem_iff.mp (by simpa using h2)
    · rw [if_neg hs] at h
      simp only [] at h
      by_cases hall : ((pyDiff np cp).contains (("ALL").data)
          || (pyDiff np cp).contains (("ALL PRIVILEGES").data)) = true
      · rw [if_pos hall] at h
        have := List.mem_filter.mp h
        have h2 : x ∈ pyDiff cp np := List.elem_iff.mp this.2
        exact mem_dedup.mp (List.mem_filter.mp h2).1
      · rw [if_neg hall] at h
        exact mem_dedup.mp (List.mem_filter.mp h).1

/-- Every token in the grant half of a per-scope delta is absent from the
current privilege set. -/
theorem reconcileScope_gp_notin {a s : Bool} {np cp : List Str} {g : Bool}
    {x : Str} (h : x ∈ (reconcileScope a s np cp g).1) : x ∉ cp := by
  rw [reconcileScope] at h
  by_cases ha : a
  · rw [if_pos ha] at h
    have := (List.mem_filter.mp h).2
    simp only [Bool.not_eq_eq_eq_not, Bool.not_true] at this
    exact notin_of_contains_false this
  · rw [if_neg ha] at h
    by_cases hs : s
    · rw [if_pos hs] at h
      simp at h
    · rw [if_neg hs] at h
      simp only [] at h
      have := (List.mem_filter.mp h).2
      simp only [Bool.not_eq_eq_eq_not, Bool.not_true] at this
      exact notin_of_contains_false this

/-- A revoke list whose SQL rendering is non-empty holds a token other than
`GRANT`. -/
theorem privStringEmpty_false {privs : List Str}
    (h : privStringEmpty privs = false) :
    ∃ x ∈ privs, ¬ x = ("GRANT").data := by
  rw [privStringEmpty, List.isEmpty_eq_false_iff_exists_mem] at h
  obtain ⟨x, hx⟩ := h
  have := List.mem_filter.mp hx
  refine ⟨x, this.1, ?_⟩
  have h2 := this.2
  simp only [Bool.not_eq_eq_eq_not, Bool.not_true, beq_eq_false_iff_ne, ne_eq] at h2
  exact h2

/-- Non-membership transported to a `contains = false` fact, for token
lists. -/
theorem contains_false_of_notin {l : List Str} {x : Str} (h : x ∉ l) :
    l.contains x = false := by
  cases hc : l.contains x with
  | false => rfl
  | true => exact absurd (List.elem_iff.mp hc) h

/-- The operation group issued for one scope of the third loop genuinely
changes that scope's privilege set in the server model, given the delta
invariants (revokes come from the current set and hold a renderable token;
grants hold a token absent from the current set). -/
theorem group_changes {curr : PrivMap} {k : Str} {gp rv : List Str}
    {g2 : Bool} {v : List Str}
    (hv : curr.lookup k = some v)
    (hsum : gp ≠ [] ∨ rv ≠ [])
    (hrv_sub : ∀ x ∈ rv, x ∈ v)
    (hrv_ex : rv ≠ [] → ∃ x ∈ rv, ¬ x = ("GRANT").data)
    (hgp_ex : gp ≠ [] → ∃ y ∈ gp, y ∉ v) :
    (applyOps curr (scopeOps k gp rv g2)).lookup k ≠ some v := by
  rw [scopeOps]
  by_cases hg : gp.length > 0
  · have hgne : gp ≠ [] := by
      intro he
      rw [he] at hg
      simp at hg
    obtain ⟨g₀, hg₀gp, hg₀v⟩ := hgp_ex hgne
    by_cases hr : rv.length > 0
    · rw [if_pos hr, if_pos hg]
      rw [show ([PrivOp.revoke k rv g2] ++ [PrivOp.grant k gp]) =
        [PrivOp.revoke k rv g2, PrivOp.grant k gp] from rfl]
      rw [applyOps, List.foldl_cons, List.foldl_cons, List.foldl_nil]
      have h1 : applyOp curr (PrivOp.revoke k rv g2) = assocSet curr k
          (v.filter (fun p =>
            ! ((rv.contains p && ! (p == ("GRANT").data)) ||
              (g2 && p == ("GRANT").data)))) := by
        rw [applyOp, hv]
      rw [h1]
      rw [applyOp, assocSet_lookup_self]
      rw [assocSet_lookup_self]
      intro heq
      have hfin := Option.some_injective _ heq
      have hg₀mid : g₀ ∉ v.filter (fun p =>
          ! ((rv.contains p && ! (p == ("GRANT").data)) ||
            (g2 && p == ("GRANT").data))) := by
        intro hm
        exact hg₀v (List.mem_filter.mp hm).1
      have hmem : g₀ ∈ v.filter (fun p =>
          ! ((rv.contains p && ! (p == ("GRANT").data)) ||
            (g2 && p == ("GRANT").data))) ++ gp.filter (fun p =>
          ! (v.filter (fun p =>
            ! ((rv.contains p && ! (p == ("GRANT").data)) ||
              (g2 && p == ("GRANT").data)))).contains p) := by
        apply List.mem_append_right
        apply List.mem_filter.mpr
        refine ⟨hg₀gp, ?_⟩
        rw [contains_false_of_notin hg₀mid]
        rfl
      rw [hfin] at hmem
      exact hg₀v hmem
    · rw [if_neg hr, List.nil_append, if_pos hg]
      rw [applyOps, List.foldl_cons, List.foldl_nil]
      rw [applyOp, hv, assocSet_lookup_self]
      intro heq
      have hfin := Option.some_injective _ heq
      have hmem : g₀ ∈ v ++ gp.filter (fun p => ! v.contains p) := by
        apply List.mem_append_right
        apply List.mem_filter.mpr
        refine ⟨hg₀gp, ?_⟩
        rw [contains_false_of_notin hg₀v]
        rfl
      rw [hfin] at hmem
      exact hg₀v hmem
  · have hgnil : gp = [] := List.length_eq_zero.mp (Nat.eq_zero_of_not_pos hg)
    have hrne : rv ≠ [] := by
      rcases hsum with h | h
      · exact absurd hgnil h
      · exact h
    have hr : rv.length > 0 := List.length_pos.mpr hrne
    rw [if_pos hr, if_neg hg, List.append_nil]
    obtain ⟨x₀, hx₀rv, hx₀g⟩ := hrv_ex hrne
    have hx₀v : x₀ ∈ v := hrv_sub x₀ hx₀rv
    have hx₀notmid : x₀ ∉ v.filter (fun p =>
        ! ((rv.contains p && ! (p == ("GRANT").data)) ||
          (g2 && p == ("GRANT").data))) := by
      intro hm
      have h2 := (List.mem_filter.mp hm).2
      have hc : rv.contains x₀ = true := List.elem_iff.mpr hx₀rv
      have hb : (x₀ == ("GRANT").data) = false := by
        simp only [beq_eq_false_iff_ne, ne_eq]
        exact hx₀g
      rw [hc, hb] at h2
      simp at h2
    rw [applyOps, List.foldl_cons, List.foldl_nil]
    rw [applyOp, hv, assocSet_lookup_self]
    intro heq
    have hfin := Option.some_injective _ heq
    rw [hfin] at hx₀notmid
    exact hx₀notmid hx₀v

/-- When the third loop (check off) issues a non-empty operation list over
duplicate-free keys that all resolve in the current map, replaying those
operations in the server model changes the current map. -/
theorem intersectLoop_change (append subtract : Bool) (curr new : PrivMap) :
    ∀ (ks : List Str) (g : Bool) (ops : List PrivOp) (gf : Bool),
    ks.Nodup → (∀ k ∈ ks, (curr.lookup k).isSome = true) →
    intersectLoop false append subtract curr new ks g = .done (ops, gf) →
    ops ≠ [] → applyOps curr ops ≠ curr := by
  intro ks
  induction ks with
  | nil =>
    intro g ops gf _ _ h hne
    rw [intersectLoop] at h
    simp only [Res.done.injEq, Prod.mk.injEq] at h
    exact absurd h.1.symm hne
  | cons k rest ih =>
    intro g ops gf hnd hks h hne
    have hkrest : k ∉ rest := (List.nodup_cons.mp hnd).1
    have hndrest : rest.Nodup := (List.nodup_cons.mp hnd).2
    have hksrest : ∀ k2 ∈ rest, (curr.lookup k2).isSome = true :=
      fun k2 hk2 => hks k2 (List.mem_cons_of_mem _ hk2)
    obtain ⟨v, hv⟩ := Option.isSome_iff_exists.mp (hks k (List.mem_cons_self _ _))
    rw [intersectLoop] at h
    generalize hgp : (if (reconcileScope append subtract ((new.lookup k).getD [])
        ((curr.lookup k).getD []) g).1 = [("GRANT").data]
      then (reconcileScope append subtract ((new.lookup k).getD [])
        ((curr.lookup k).getD []) g).1 ++ [("USAGE").data]
      else (reconcileScope append subtract ((new.lookup k).getD [])
        ((curr.lookup k).getD []) g).1) = gp at h
    generalize hrv : (reconcileScope append subtract ((new.lookup k).getD [])
      ((curr.lookup k).getD []) g).2.1 = rv at h
    by_cases hlen : gp.length + rv.length > 0
    · rw [if_pos hlen, if_neg (by simp)] at h
      by_cases hf : (decide (rv.length > 0) && privStringEmpty rv) = true
      · rw [if_pos hf] at h
        exact absurd h (by simp)
      · rw [if_neg hf] at h
        cases hr : intersectLoop false append subtract curr new rest
            (reconcileScope append subtract ((new.lookup k).getD [])
              ((curr.lookup k).getD []) g).2.2 with
        | early => rw [hr] at h; exact absurd h (by simp)
        | failed => rw [hr] at h; exact absurd h (by simp)
        | done v2 =>
          obtain ⟨ops2, gf2⟩ := v2
          rw [hr] at h
          simp only [Res.done.injEq, Prod.mk.injEq] at h
          have hsum : gp ≠ [] ∨ rv ≠ [] := by
            by_cases hgnil : gp = []
            · refine Or.inr ?_
              intro hrnil
              rw [hgnil, hrnil] at hlen
              simp at hlen
            · exact Or.inl hgnil
          have hrv_sub : ∀ x ∈ rv, x ∈ v := by
            intro x hx
            rw [← hrv] at hx
            have := reconcileScope_rv_sub hx
            rw [hv] at this
            exact this
          have hrv_ex : rv ≠ [] → ∃ x ∈ rv, ¬ x = ("GRANT").data := by
            intro hrne
            have hpos : (decide (rv.length > 0)) = true := by
              simp [List.length_pos.mpr hrne]
            have hpe : privStringEmpty rv = false := by
              cases hpe : privStringEmpty rv with
              | false => rfl
              | true => exact absurd (by rw [hpos, hpe]; rfl) hf
            exact privStringEmpty_false hpe
          have hgp_ex : gp ≠ [] → ∃ y ∈ gp, y ∉ v := by
            intro _
            by_cases hgr : (reconcileScope append subtract ((new.lookup k).getD [])
                ((curr.lookup k).getD []) g).1 = [("GRANT").data]
            · refine ⟨("GRANT").data, ?_, ?_⟩
              · rw [← hgp, if_pos hgr, hgr]
                simp
              · have hm : ("GRANT").data ∈ (reconcileScope append subtract
                    ((new.lookup k).getD []) ((curr.lookup k).getD []) g).1 := by
                  rw [hgr]
                  simp
                have := reconcileScope_gp_notin hm
                rw [hv] at this
                exact this
            · have hgeq : gp = (reconcileScope append subtract ((new.lookup k).getD [])
                  ((curr.lookup k).getD []) g).1 := by
                rw [← hgp, if_neg hgr]
              have hgne2 : (reconcileScope append subtract ((new.lookup k).getD [])
                  ((curr.lookup k).getD []) g).1 ≠ [] := by
                rw [← hgeq]
                assumption
              obtain ⟨y, hy⟩ := List.exists_mem_of_ne_nil _ hgne2
              refine ⟨y, by rw [hgeq]; exact hy, ?_⟩
              have := reconcileScope_gp_notin hy
              rw [hv] at this
              exact this
          have hgrp := @group_changes curr k gp rv
            ((reconcileScope append subtract ((new.lookup k).getD [])
              ((curr.lookup k).getD []) g).2.2) v hv hsum hrv_sub hrv_ex hgp_ex
          intro heq
          apply hgrp
          have hsplit : applyOps curr ops = applyOps (applyOps curr
              (scopeOps k gp rv (reconcileScope append subtract ((new.lookup k).getD [])
                ((curr.lookup k).getD []) g).2.2)) ops2 := by
            rw [← h.1]
            rw [applyOps, applyOps, applyOps, List.foldl_append]
          have hnotk : ∀ op ∈ ops2, op.scope ≠ k := by
            intro op hop hek
            have := intersectLoop_scopes false append subtract curr new rest _ ops2 gf2 hr op hop
            rw [hek] at this
            exact hkrest this
          have hlook := applyOps_lookup_notin ops2 (applyOps curr
            (scopeOps k gp rv (reconcileScope append subtract ((new.lookup k).getD [])
              ((curr.lookup k).getD []) g).2.2)) hnotk
          rw [← hsplit, heq] at hlook
          rw [← hlook]
          exact hv
    · rw [if_neg hlen] at h
      exact ih _ ops gf hndrest hksrest h hne

/-- In the blanket-revoke loop, `changed` is reported exactly when an
operation was issued. -/
theorem revokeAbsent_changed_iff (user : Str) (check : Bool) (new : PrivMap) :
    ∀ (l : PrivMap) (g g' : Bool) (ops : List PrivOp) (ch : Bool),
    revokeAbsent user check new l g = .done (g', ops, ch) →
    (ch = true ↔ ops ≠ []) := by
  intro l
  induction l with
  | nil =>
    intro g g' ops ch h
    rw [revokeAbsent] at h
    simp only [Res.done.injEq, Prod.mk.injEq] at h
    rw [← h.2.1, ← h.2.2]
    simp
  | cons e rest ih =>
    intro g g' ops ch h
    rw [revokeAbsent] at h
    by_cases h1 : (new.lookup e.1).isNone = true
    · rw [if_pos h1] at h
      by_cases h2 : user ≠ ("root").data ∧ ¬ e.2.contains (("PROXY").data) = true
      · rw [if_pos h2] at h
        by_cases hc : check
        · rw [if_pos hc] at h
          exact absurd h (by simp)
        · rw [if_neg hc] at h
          by_cases hpe : privStringEmpty e.2 = true
          · rw [if_pos hpe] at h
            exact absurd h (by simp)
          · rw [if_neg hpe] at h
            cases hr : revokeAbsent user check new rest
                (if e.2.contains (("GRANT").data) then true else g) with
            | early => rw [hr] at h; exact absurd h (by simp)
            | failed => rw [hr] at h; exact absurd h (by simp)
            | done v =>
              obtain ⟨g2, ops2, ch2⟩ := v
              rw [hr] at h
              simp only [Res.done.injEq, Prod.mk.injEq] at h
              rw [← h.2.1, ← h.2.2]
              simp
      · rw [if_neg h2] at h
        exact ih _ _ _ _ h
    · rw [if_neg h1] at h
      exact ih _ _ _ _ h

/-- In the wholesale-grant loop, `changed` is reported exactly when an
operation was issued. -/
theorem grantNew_changed_iff (check : Bool) (curr : PrivMap) :
    ∀ (l : PrivMap) (ops : List PrivOp) (ch : Bool),
    grantNew check curr l = .done (ops, ch) → (ch = true ↔ ops ≠ []) := by
  intro l
  induction l with
  | nil =>
    intro ops ch h
    rw [grantNew] at h
    simp only [Res.done.injEq, Prod.mk.injEq] at h
    rw [← h.1, ← h.2]
    simp
  | cons e rest ih =>
    intro ops ch h
    rw [grantNew] at h
    by_cases h1 : (curr.lookup e.1).isNone = true
    · rw [if_pos h1] at h
      by_cases hc : check
      · rw [if_pos hc] at h
        exact absurd h (by simp)
      · rw [if_neg hc] at h
        by_cases hpe : privStringEmpty e.2 = true
        · rw [if_pos hpe] at h
          exact absurd h (by simp)
        · rw [if_neg hpe] at h
          cases hr : grantNew check curr rest with
          | early => rw [hr] at h; exact absurd h (by simp)
          | failed => rw [hr] at h; exact absurd h (by simp)
          | done v =>
            obtain ⟨ops2, ch2⟩ := v
            rw [hr] at h
            simp only [Res.done.injEq, Prod.mk.injEq] at h
            rw [← h.1, ← h.2]
            simp
    · rw [if_neg h1] at h
      exact ih _ _ h

/-- C4: for every privilege reconciliation run of the user_mod privilege
section with check mode off, under any policy, the returned changed flag is
true exactly when at least one grant or revoke operation is issued. -/
theorem C4_changed_iff_ops (user : Str) (append subtract : Bool)
    (curr new : PrivMap) (ops : List PrivOp) (ch : Bool)
    (h : handle_privileges user false append subtract curr new = .done (ops, ch)) :
    ch = true ↔ ops ≠ [] := by
  unfold handle_privileges at h
  cases h1 : (if ¬ append ∧ ¬ subtract
      then revokeAbsent user false new curr false
      else .done (false, [], false)) with
  | early => rw [h1] at h; exact absurd h (by simp)
  | failed => rw [h1] at h; exact absurd h (by simp)
  | done v1 =>
    obtain ⟨g1, ops1, ch1⟩ := v1
    rw [h1] at h
    simp only [] at h
    have hiff1 : ch1 = true ↔ ops1 ≠ [] := by
      by_cases hpol : ¬ append ∧ ¬ subtract
      · rw [if_pos hpol] at h1
        exact revokeAbsent_changed_iff user false new curr false g1 ops1 ch1 h1
      · rw [if_neg hpol] at h1
        simp only [Res.done.injEq, Prod.mk.injEq] at h1
        rw [← h1.2.1, ← h1.2.2]
        simp
    cases h2 : (if ¬ subtract then grantNew false curr new
        else .done ([], false)) with
    | early => rw [h2] at h; exact absurd h (by simp)
    | failed => rw [h2] at h; exact absurd h (by simp)
    | done v2 =>
      obtain ⟨ops2, ch2⟩ := v2
      rw [h2] at h
      simp only [] at h
      have hiff2 : ch2 = true ↔ ops2 ≠ [] := by
        by_cases hpol : ¬ subtract
        · rw [if_pos hpol] at h2
          exact grantNew_changed_iff false curr new ops2 ch2 h2
        · rw [if_neg hpol] at h2
          simp only [Res.done.injEq, Prod.mk.injEq] at h2
          rw [← h2.1, ← h2.2]
          simp
      cases h3 : intersectLoop false append subtract curr new
          ((dedup (new.map Prod.fst)).filter
            (fun k => (curr.lookup k).isSome)) g1 with
      | early => rw [h3] at h; exact absurd h (by simp)
      | failed => rw [h3] at h; exact absurd h (by simp)
      | done v3 =>
        obtain ⟨ops3, gf3⟩ := v3
        rw [h3] at h
        simp only [Res.done.injEq, Prod.mk.injEq] at h
        constructor
        · intro hch
          intro hnil
          rw [hnil] at h
          have hsplit : ops1 ++ ops2 ++ ops3 = [] := h.1
          have h12 := List.append_eq_nil.mp hsplit
          have hops3 : ops3 = [] := h12.2
          have h11 := List.append_eq_nil.mp h12.1
          have hops1 : ops1 = [] := h11.1
          have hops2 : ops2 = [] := h11.2
          have hch1 : ch1 = false := by
            cases hc : ch1 with
            | false => rfl
            | true => exact absurd hops1 (hiff1.mp hc)
          have hch2 : ch2 = false := by
            cases hc : ch2 with
            | false => rfl
            | true => exact absurd hops2 (hiff2.mp hc)
          have hafter : applyOps curr (ops1 ++ ops2 ++ ops3) = curr := by
            rw [hops1, hops2, hops3]
            rfl
          have := h.2
          rw [hch1, hch2, hafter] at this
          simp at this
          rw [hch] at this
          cases this
        · intro hops
          by_cases hop1 : ops1 ≠ []
          · have := hiff1.mpr hop1
            rw [← h.2, this]
            simp
          · by_cases hop2 : ops2 ≠ []
            · have := hiff2.mpr hop2
              rw [← h.2, this]
              simp
            · have hops1 : ops1 = [] := by
                by_contra hc
                exact hop1 hc
              have hops2 : ops2 = [] := by
                by_contra hc
                exact hop2 hc
              have hops3 : ops3 ≠ [] := by
                intro hc
                apply hops
                rw [← h.1, hops1, hops2, hc]
                rfl
              have hnd : ((dedup (new.map Prod.fst)).filter
                  (fun k => (curr.lookup k).isSome)).Nodup :=
                List.Nodup.filter _ (dedup_nodup _)
              have hks : ∀ k ∈ (dedup (new.map Prod.fst)).filter
                  (fun k => (curr.lookup k).isSome),
                  (curr.lookup k).isSome = true := by
                intro k hk
                have := (List.mem_filter.mp hk).2
                simpa using this
              have hchg := intersectLoop_change append subtract curr new _ g1
                ops3 gf3 hnd hks h3 hops3
              have hne : curr ≠ applyOps curr (ops1 ++ ops2 ++ ops3) := by
                rw [hops1, hops2]
                simp only [List.nil_append]
                exact fun he => hchg he.symm
              rw [← h.2]
              simp only [Bool.or_eq_true, decide_eq_true_eq]
              refine Or.inr ?_
              exact hne

theorem C4_changed_iff_ops_witness :
    (true = true ↔ ([PrivOp.revoke (("*.*").data) [("SELECT").data] false,
      PrivOp.grant (("*.*").data) [("UPDATE").data]] : List PrivOp) ≠ []) :=
  C4_changed_iff_ops (("bob").data) false false
    [((("*.*").data), [("SELECT").data])]
    [((("*.*").data), [("UPDATE").data])]
    [PrivOp.revoke (("*.*").data) [("SELECT").data] false,
      PrivOp.grant (("*.*").data) [("UPDATE").data]] true rfl

/-- Python string truthiness for optional string arguments (`None` and the
empty string are falsy). -/
def pyTruthy : Option Str → Bool
  | none => false
  | some s => ! s.isEmpty

/-- The `CREATE USER` query variants of `user_add`, by authentication
branch. -/
inductive CreateQ
  | byPassword (user host password : Str)
  | withNativeAs (user host hash : Str)
  | byPlain (user host password : Str)
  | withPluginAs (user host plugin hash : Str)
  | withPluginBy (user host plugin auth : Str)
  | withPlugin (user host plugin : Str)
  | plainQ (user host : Str)
deriving DecidableEq

/-- The SQL statements issued by the user lifecycle functions, one
constructor per `cursor.execute` site (helper reads such as
`get_server_version`, `get_existing_authentication`, `get_tls_requires` and
`get_grants` are each modelled as a single read statement). -/
inductive Stmt
  | readVersion
  | readExistingAuth
  | readEncryptPassword
  | writeCreateUser (q : CreateQ)
  | writeGrant (user host db_table : Str) (priv : List Str)
  | readShowGrants
  | writeGrantAll (user host : Str) (grants : List Str)
  | readPluginAuth
  | writeAlterPlugin (user host plugin : Str) (hashArg authArg : Option Str)
  | readTlsRequires
  | readShowGrantsTls
  | writeTlsUpdate (user host : Str)
  | readHostnames
  | writeDropUser (user host : Str)
deriving DecidableEq

/-- Whether a statement mutates server state. -/
def Stmt.isWrite : Stmt → Bool
  | .writeCreateUser _ => true
  | .writeGrant _ _ _ _ => true
  | .writeGrantAll _ _ _ => true
  | .writeAlterPlugin _ _ _ _ _ => true
  | .writeTlsUpdate _ _ => true
  | .writeDropUser _ _ => true
  | _ => false

/-- The server-side facts `user_add` reads: the management mode and
identified-by-password support (version checks), the stored authentication
of an existing user, the hash the server computes for a plain password, and
the current grants used by the TLS re-grant. -/
structure AddEnv where
  old_user_mgmt : Bool
  supports_identified_by_password : Bool
  existing_auth : Option (Str × Str)
  encrypted_password : Str
  server_grants : List Str
deriving DecidableEq

/-- `user_add` with a statement trace: the `host_all` early return, the
check-mode early return, then the authentication branch selecting a
`CREATE USER` variant, the per-scope grants and the TLS re-grant.  Results
are `(changed, password_changed)` with `password_changed = none` embedding
Python's `None`. -/
def user_add (user host : Str) (host_all : Bool) (password : Option Str)
    (encrypted : Bool) (plugin plugin_hash_string plugin_auth_string : Option Str)
    (new_priv : Option PrivMap) (tls_requires : Option Str)
    (check_mode reuse_existing_password : Bool) (env : AddEnv) :
    (Bool × Option Bool) × List Stmt :=
  if host_all then ((false, some false), [])
  else if check_mode then ((true, none), [])
  else
    let t0 : List Stmt := [Stmt.readVersion]
    let state :=
      if reuse_existing_password then
        match env.existing_auth with
        | some (p, a) =>
          (some p, some a, (none : Option Str), true, t0 ++ [Stmt.readExistingAuth])
        | none =>
          (plugin, plugin_hash_string, password, false, t0 ++ [Stmt.readExistingAuth])
      else (plugin, plugin_hash_string, password, false, t0)
    match state with
    | (plugin2, phash2, password2, used_existing, t1) =>
      let qt : CreateQ × List Stmt :=
        if pyTruthy password2 && encrypted then
          if env.supports_identified_by_password then
            (.byPassword user host (password2.getD []), t1 ++ [Stmt.readVersion])
          else (.withNativeAs user host (password2.getD []), t1 ++ [Stmt.readVersion])
        else if pyTruthy password2 then
          if env.old_user_mgmt then (.byPlain user host (password2.getD []), t1)
          else (.withNativeAs user host env.encrypted_password,
            t1 ++ [Stmt.readEncryptPassword])
        else if pyTruthy plugin2 && pyTruthy phash2 then
          (.withPluginAs user host (plugin2.getD []) (phash2.getD []), t1)
        else if pyTruthy plugin2 && pyTruthy plugin_auth_string then
          (.withPluginBy user host (plugin2.getD []) (plugin_auth_string.getD []), t1)
        else if pyTruthy plugin2 then (.withPlugin user host (plugin2.getD []), t1)
        else (.plainQ user host, t1)
      let t2 := qt.2 ++ [Stmt.writeCreateUser qt.1]
      let t3 := match new_priv with
        | some m => t2 ++ m.map (fun e => Stmt.writeGrant user host e.1 e.2)
        | none => t2
      let t4 := match tls_requires with
        | some _ => t3 ++ [Stmt.readShowGrants,
            Stmt.writeGrantAll user host env.server_grants]
        | none => t3
      ((true, some (! used_existing)), t4)

/-- The server-side facts the `user_mod` slice reads: the management mode,
the stored `(plugin, authentication_string)` pair, and the current TLS
requirements (abstracted to an optional rendering). -/
structure ModEnv where
  old_user_mgmt : Bool
  current_plugin : Str × Str
  tls_current : Option Str
deriving DecidableEq

/-- The `user_mod` per-host sequence for `role = False`, `host_all = False`,
a falsy `password` and `new_priv = None` (the password block is skipped by
`bool(password)`, the privilege section is settled separately): the
version read, then the plugin-authentication block — whose `ALTER USER` is
issued without any check-mode guard — then the TLS block with its guarded
update.  Results are `(changed, password_changed)` with the statement
trace. -/
def user_mod_nopass (check : Bool) (user host : Str)
    (plugin plugin_hash_string plugin_auth_string : Option Str)
    (tls_requires : Option Str) (env : ModEnv) : (Bool × Bool) × List Stmt :=
  let t0 : List Stmt := [Stmt.readVersion]
  let afterPlugin : Bool × Bool × List Stmt :=
    if pyTruthy plugin then
      let t1 := t0 ++ [Stmt.readPluginAuth]
      let update :=
        decide (env.current_plugin.1 ≠ plugin.getD []) ||
        (pyTruthy plugin_hash_string &&
          decide (env.current_plugin.2 ≠ plugin_hash_string.getD [])) ||
        (pyTruthy plugin_auth_string &&
          decide (env.current_plugin.2 ≠ plugin_auth_string.getD []))
      if update then
        let args : Option Str × Option Str :=
          if pyTruthy plugin_hash_string then (plugin_hash_string, none)
          else if pyTruthy plugin_auth_string then (none, plugin_auth_string)
          else (none, none)
        (true, true, t1 ++ [Stmt.writeAlterPlugin user host (plugin.getD [])
          args.1 args.2])
      else (false, false, t1)
    else (false, false, t0)
  match afterPlugin with
  | (changed, password_changed, t2) =>
    let t3 := t2 ++ [Stmt.readTlsRequires]
    if env.tls_current ≠ tls_requires then
      if check then ((true, password_changed), t3)
      else
        let t4 := if env.old_user_mgmt then t3 ++ [Stmt.readShowGrantsTls] else t3
        ((true, password_changed), t4 ++ [Stmt.writeTlsUpdate user host])
    else ((changed, password_changed), t3)

/-- `user_delete` with a statement trace: check mode returns `True` before
touching the cursor; otherwise the hostname read (under `host_all`) and one
`DROP USER` per hostname. -/
def user_delete (user host : Str) (host_all check_mode : Bool)
    (hostnames : List Str) : Bool × List Stmt :=
  if check_mode then (true, [])
  else if host_all then
    (true, Stmt.readHostnames :: hostnames.map (fun h => Stmt.writeDropUser user h))
  else (true, [Stmt.writeDropUser user host])

/-- C5: dry-run purity fails on the code: `user_mod`'s plugin-authentication
block issues its `ALTER USER` with no check-mode guard, so at this input — a
user whose stored plugin (`mysql_native_password`) differs from the
requested `caching_sha2_password` — the check-mode run's trace contains
exactly that mutating statement instead of none. -/
theorem C5_checkmode_write_leak :
    ((user_mod_nopass true (("bob").data) (("localhost").data)
      (some (("caching_sha2_password").data)) none none none
      ⟨false, ((("mysql_native_password").data), []), none⟩).2.filter
        Stmt.isWrite) =
      [Stmt.writeAlterPlugin (("bob").data) (("localhost").data)
        (("caching_sha2_password").data) none none] := by decide

/-- C10: `user_add` invoked with `host_all` returns
`changed = False, password_changed = False` and issues no SQL statement at
all, regardless of every other argument (including check mode, password,
plugin, privileges and TLS requirements). -/
theorem C10_host_all_noop (user host : Str) (password : Option Str)
    (encrypted : Bool) (plugin plugin_hash_string plugin_auth_string : Option Str)
    (new_priv : Option PrivMap) (tls_requires : Option Str)
    (check_mode reuse_existing_password : Bool) (env : AddEnv) :
    user_add user host true password encrypted plugin plugin_hash_string
      plugin_auth_string new_priv tls_requires check_mode
      reuse_existing_password env = ((false, some false), []) := rfl
